import Mathlib

/-!
Verification development for the I3D Blender exporter
(`addon/i3dio/i3d_exporter.py`, with the light property panel in
`addon/i3dio/ui/light.py`).

The exporter walks a Blender scene, deduplicates geometry, materials and
file references, and emits an XML document.  This file gives a shallow
embedding of the exporter's data model and algorithms:

* Python strings are modelled as `List Char` (`PyStr`);
* Python floats that the exporter prints with `"%.6f"` are modelled by
  their post-rounding value in integer micro-units (an `Int` counting
  millionths), and the formatting function `fmtFloat6` reproduces the
  printed decimal string;
* the mutable exporter singleton's state (the XML sections, the id
  counters and the dedup dictionaries) is an explicit `ExpState` record
  threaded through the functions;
* Python exceptions, where they are relevant, are modelled with `Except`.

Each section cites the lines of `i3d_exporter.py` it embeds.
-/

set_option maxHeartbeats 1000000

namespace I3D

/-- Python strings are modelled as lists of characters. -/
abbrev PyStr := List Char

/-- Convert a Lean string literal to the `PyStr` model. -/
def pyStr (s : String) : PyStr := s.data

/-- The left brace character, `Char 123`. -/
def lbrace : Char := Char.ofNat 123

/-- The right brace character, `Char 125`. -/
def rbrace : Char := Char.ofNat 125

/-- The single-quote character, `Char 39`. -/
def squote : Char := Char.ofNat 39

/-!
## Generic string-splitting lemma

If a character `c` occurs in neither `a` nor `b`, then the decomposition
of a string as `a ++ c :: x` is unique: the split happens at the first
occurrence of `c`.  This single lemma drives every injectivity argument
about the exporter's concatenated dedup keys.
-/

theorem splitAtChar {c : Char} :
    ∀ (a b x y : List Char), c ∉ a → c ∉ b →
      a ++ c :: x = b ++ c :: y → a = b ∧ x = y := by
  intro a
  induction a with
  | nil =>
    intro b x y _ hb h
    cases b with
    | nil => simpa using h
    | cons bh bt =>
      simp only [List.nil_append, List.cons_append, List.cons.injEq] at h
      exact absurd (h.1 ▸ List.mem_cons_self bh bt) hb
  | cons ah at' ih =>
    intro b x y ha hb h
    cases b with
    | nil =>
      simp only [List.nil_append, List.cons_append, List.cons.injEq] at h
      exact absurd (h.1.symm ▸ List.mem_cons_self ah at') ha
    | cons bh bt =>
      simp only [List.cons_append, List.cons.injEq] at h
      have ha' : c ∉ at' := fun hm => ha (List.mem_cons_of_mem _ hm)
      have hb' : c ∉ bt := fun hm => hb (List.mem_cons_of_mem _ hm)
      obtain ⟨h1, h2⟩ := ih bt x y ha' hb' h.2
      exact ⟨by rw [h.1, h1], h2⟩

/-- Splitting at the *last* occurrence of `c`: if `c` occurs in neither
suffix, the decomposition `a ++ c :: x` is unique. -/
theorem splitAtLastChar {c : Char} (a b x y : List Char)
    (hx : c ∉ x) (hy : c ∉ y) (h : a ++ c :: x = b ++ c :: y) :
    a = b ∧ x = y := by
  have hr : x.reverse ++ c :: a.reverse = y.reverse ++ c :: b.reverse := by
    have := congrArg List.reverse h
    simpa [List.reverse_append] using this
  have hx' : c ∉ x.reverse := by simpa using hx
  have hy' : c ∉ y.reverse := by simpa using hy
  obtain ⟨h1, h2⟩ := splitAtChar _ _ _ _ hx' hy' hr
  constructor
  · exact List.reverse_inj.mp h2
  · exact List.reverse_inj.mp h1

/-!
## Decimal formatting (`"%.6f"`, lines 509-526 and elsewhere)

The exporter prints every vertex coordinate, normal component and UV
coordinate with Python's `"%.6f"` format.  A post-rounding value is
modelled as an `Int` in micro-units; `fmtFloat6` reproduces the printed
string exactly (sign, integer digits, a dot, six fractional digits).
-/

/-- Fuel-based little-endian-to-big-endian decimal digit printer (the
fuel makes it structurally recursive, so that concrete instances reduce
inside the kernel). -/
def natReprAux : Nat → Nat → List Char
  | 0, _ => []
  | f + 1, n => if n = 0 then [] else natReprAux f (n / 10) ++ [Nat.digitChar (n % 10)]

/-- Decimal digits of a natural number, most significant first
(Python's `str(n)` for a non-negative integer). -/
def natRepr (n : Nat) : PyStr :=
  if n = 0 then [Char.ofNat 48] else natReprAux n n

theorem natReprAux_eq_digits :
    ∀ (f n : Nat), n ≤ f → natReprAux f n = ((Nat.digits 10 n).map Nat.digitChar).reverse := by
  intro f
  induction f with
  | zero =>
    intro n hn
    interval_cases n
    simp [natReprAux]
  | succ f ih =>
    intro n hn
    by_cases h0 : n = 0
    · simp [natReprAux, h0]
    · have hpos : 0 < n := Nat.pos_of_ne_zero h0
      have hdiv : n / 10 ≤ f := by
        have : n / 10 < n := Nat.div_lt_self hpos (by norm_num)
        omega
      rw [show natReprAux (f + 1) n = natReprAux f (n / 10) ++ [Nat.digitChar (n % 10)] by
            simp [natReprAux, h0],
        ih _ hdiv, Nat.digits_def' (by norm_num : 1 < 10) hpos]
      simp

/-- `natRepr` agrees with the `Nat.digits`-based characterization. -/
theorem natRepr_eq (n : Nat) :
    natRepr n = if n = 0 then [Char.ofNat 48]
      else ((Nat.digits 10 n).map Nat.digitChar).reverse := by
  unfold natRepr
  by_cases h0 : n = 0
  · simp [h0]
  · simp [h0, natReprAux_eq_digits n n le_rfl]

/-- The ten decimal digit characters. -/
def decDigits : List Char := pyStr ("0123456789")

theorem digitChar_mem_decDigits : ∀ d < 10, Nat.digitChar d ∈ decDigits := by decide

theorem digitChar_inj : ∀ d < 10, ∀ e < 10, Nat.digitChar d = Nat.digitChar e → d = e := by
  decide

theorem mem_natRepr_decDigit {n : Nat} {ch : Char} (h : ch ∈ natRepr n) : ch ∈ decDigits := by
  rw [natRepr_eq] at h
  by_cases h0 : n = 0
  · simp [h0] at h
    subst h
    decide
  · simp only [h0, if_false, List.mem_reverse, List.mem_map] at h
    obtain ⟨d, hd, hdc⟩ := h
    exact hdc ▸ digitChar_mem_decDigits d (Nat.digits_lt_base (by norm_num) hd)

theorem natRepr_ne_nil (n : Nat) : natRepr n ≠ [] := by
  rw [natRepr_eq]
  by_cases h0 : n = 0
  · simp [h0]
  · simp only [h0, if_false, ne_eq, List.reverse_eq_nil_iff, List.map_eq_nil_iff]
    exact Nat.digits_ne_nil_iff_ne_zero.mpr h0

theorem map_digitChar_inj :
    ∀ (l1 l2 : List Nat), (∀ d ∈ l1, d < 10) → (∀ d ∈ l2, d < 10) →
      l1.map Nat.digitChar = l2.map Nat.digitChar → l1 = l2 := by
  intro l1
  induction l1 with
  | nil => intro l2 _ _ h; cases l2 <;> simp_all
  | cons d1 t1 ih =>
    intro l2 h1 h2 h
    cases l2 with
    | nil => simp at h
    | cons d2 t2 =>
      simp only [List.map_cons, List.cons.injEq] at h
      have hd : d1 = d2 :=
        digitChar_inj d1 (h1 d1 (List.mem_cons_self _ _)) d2 (h2 d2 (List.mem_cons_self _ _)) h.1
      have ht : t1 = t2 :=
        ih t2 (fun d hd => h1 d (List.mem_cons_of_mem _ hd))
          (fun d hd => h2 d (List.mem_cons_of_mem _ hd)) h.2
      rw [hd, ht]

theorem natRepr_eq_zeroChar {n : Nat} (h : natRepr n = [Char.ofNat 48]) : n = 0 := by
  by_cases hn : n = 0
  · exact hn
  · exfalso
    rw [natRepr_eq] at h
    simp only [hn, if_false] at h
    have h' : (Nat.digits 10 n).map Nat.digitChar = [Char.ofNat 48] := by
      rw [← List.reverse_inj, h]
      rfl
    cases hd : Nat.digits 10 n with
    | nil => rw [hd] at h'; simp at h'
    | cons d t =>
      rw [hd] at h'
      simp only [List.map_cons, List.cons.injEq, List.map_eq_nil_iff] at h'
      have hd10 : d < 10 := Nat.digits_lt_base (by norm_num) (hd ▸ List.mem_cons_self d t)
      have hd0 : d = 0 := digitChar_inj d hd10 0 (by norm_num) (by rw [h'.1]; decide)
      apply hn
      rw [← Nat.ofDigits_digits 10 n, hd, hd0, h'.2]
      simp [Nat.ofDigits]

theorem natRepr_inj {n m : Nat} (h : natRepr n = natRepr m) : n = m := by
  by_cases hn : n = 0 <;> by_cases hm : m = 0
  · rw [hn, hm]
  · exfalso
    apply hm
    apply natRepr_eq_zeroChar
    rw [← h, hn]
    rfl
  · exfalso
    apply hn
    apply natRepr_eq_zeroChar
    rw [h, hm]
    rfl
  · rw [natRepr_eq, natRepr_eq] at h
    simp only [hn, if_false, hm, if_false] at h
    have h' := List.reverse_inj.mp h
    have hdig := map_digitChar_inj _ _
      (fun d hd => Nat.digits_lt_base (by norm_num) hd)
      (fun d hd => Nat.digits_lt_base (by norm_num) hd) h'
    calc n = Nat.ofDigits 10 (Nat.digits 10 n) := (Nat.ofDigits_digits 10 n).symm
      _ = Nat.ofDigits 10 (Nat.digits 10 m) := by rw [hdig]
      _ = m := Nat.ofDigits_digits 10 m

/-- The six zero-padded fractional digits printed by `"%.6f"` for a
fractional part of `m` micro-units (`m < 1000000`). -/
def fracDigits (m : Nat) : PyStr :=
  [Nat.digitChar (m / 100000 % 10), Nat.digitChar (m / 10000 % 10),
   Nat.digitChar (m / 1000 % 10), Nat.digitChar (m / 100 % 10),
   Nat.digitChar (m / 10 % 10), Nat.digitChar (m % 10)]

theorem mem_fracDigits_decDigit {m : Nat} {ch : Char} (h : ch ∈ fracDigits m) :
    ch ∈ decDigits := by
  unfold fracDigits at h
  simp only [List.mem_cons, List.not_mem_nil, or_false] at h
  rcases h with h | h | h | h | h | h <;>
    exact h ▸ digitChar_mem_decDigits _ (Nat.mod_lt _ (by norm_num))

theorem fracDigits_inj {m1 m2 : Nat} (h1 : m1 < 1000000) (h2 : m2 < 1000000)
    (h : fracDigits m1 = fracDigits m2) : m1 = m2 := by
  unfold fracDigits at h
  simp only [List.cons.injEq, and_true] at h
  obtain ⟨e1, e2, e3, e4, e5, e6⟩ := h
  have d1 := digitChar_inj _ (Nat.mod_lt _ (by norm_num)) _ (Nat.mod_lt _ (by norm_num)) e1
  have d2 := digitChar_inj _ (Nat.mod_lt _ (by norm_num)) _ (Nat.mod_lt _ (by norm_num)) e2
  have d3 := digitChar_inj _ (Nat.mod_lt _ (by norm_num)) _ (Nat.mod_lt _ (by norm_num)) e3
  have d4 := digitChar_inj _ (Nat.mod_lt _ (by norm_num)) _ (Nat.mod_lt _ (by norm_num)) e4
  have d5 := digitChar_inj _ (Nat.mod_lt _ (by norm_num)) _ (Nat.mod_lt _ (by norm_num)) e5
  have d6 := digitChar_inj _ (Nat.mod_lt _ (by norm_num)) _ (Nat.mod_lt _ (by norm_num)) e6
  omega

/-- Python's `"%.6f"` format applied to a post-rounding value of `x`
micro-units: optional minus sign, integer digits, a dot, six fractional
digits. -/
def fmtFloat6 (x : Int) : PyStr :=
  (if x < 0 then [Char.ofNat 45] else []) ++
    natRepr (x.natAbs / 1000000) ++ Char.ofNat 46 :: fracDigits (x.natAbs % 1000000)

/-- The characters `"%.6f"` can print. -/
def floatChars : List Char := pyStr ("-.0123456789")

theorem mem_fmtFloat6_floatChar {x : Int} {ch : Char} (h : ch ∈ fmtFloat6 x) :
    ch ∈ floatChars := by
  unfold fmtFloat6 at h
  simp only [List.mem_append, List.mem_cons] at h
  have hsub : decDigits ⊆ floatChars := by decide
  rcases h with (h | h) | h | h
  · by_cases hx : x < 0 <;> simp [hx] at h
    subst h
    decide
  · exact hsub (mem_natRepr_decDigit h)
  · subst h
    decide
  · exact hsub (mem_fracDigits_decDigit h)

theorem fmtFloat6_ne_nil (x : Int) : fmtFloat6 x ≠ [] := by
  unfold fmtFloat6
  by_cases hx : x < 0 <;> simp [hx]

theorem space_not_mem_fmtFloat6 {x : Int} : (' ' : Char) ∉ fmtFloat6 x := by
  intro h
  have := mem_fmtFloat6_floatChar h
  revert this
  decide

theorem squote_not_mem_fmtFloat6 {x : Int} : squote ∉ fmtFloat6 x := by
  intro h
  have := mem_fmtFloat6_floatChar h
  revert this
  decide

theorem lbrace_not_mem_fmtFloat6 {x : Int} : lbrace ∉ fmtFloat6 x := by
  intro h
  have := mem_fmtFloat6_floatChar h
  revert this
  decide

theorem dot_not_mem_natRepr {n : Nat} : (Char.ofNat 46) ∉ natRepr n := by
  intro h
  have := mem_natRepr_decDigit h
  revert this
  decide

/-- The head of `natRepr` is a decimal digit, hence never the minus sign. -/
theorem natRepr_head_ne_minus (n : Nat) (t : List Char) (h : natRepr n = Char.ofNat 45 :: t) :
    False := by
  have : (Char.ofNat 45) ∈ natRepr n := h ▸ List.mem_cons_self _ _
  have := mem_natRepr_decDigit this
  revert this
  decide

theorem fmtFloat6_inj {x y : Int} (h : fmtFloat6 x = fmtFloat6 y) : x = y := by
  unfold fmtFloat6 at h
  have habs : x.natAbs = y.natAbs ∧ (x < 0 ↔ y < 0) := by
    by_cases hx : x < 0 <;> by_cases hy : y < 0
    · simp only [hx, hy, if_true, List.cons_append, List.nil_append, List.cons.injEq,
        true_and] at h
      obtain ⟨hq, hfr⟩ := splitAtChar _ _ _ _ dot_not_mem_natRepr dot_not_mem_natRepr h
      refine ⟨?_, by simp [hx, hy]⟩
      have hih := natRepr_inj hq
      have hfl := fracDigits_inj (Nat.mod_lt _ (by norm_num)) (Nat.mod_lt _ (by norm_num))
        (by simpa using hfr)
      omega
    · exfalso
      simp only [hx, hy, if_true, if_false, List.cons_append, List.nil_append] at h
      cases hr : natRepr (y.natAbs / 1000000) with
      | nil => exact natRepr_ne_nil _ hr
      | cons c t =>
        rw [hr] at h
        simp only [List.cons_append, List.cons.injEq] at h
        exact natRepr_head_ne_minus _ t (by rw [hr, ← h.1])
    · exfalso
      simp only [hx, hy, if_true, if_false, List.cons_append, List.nil_append] at h
      cases hr : natRepr (x.natAbs / 1000000) with
      | nil => exact natRepr_ne_nil _ hr
      | cons c t =>
        rw [hr] at h
        simp only [List.cons_append, List.cons.injEq] at h
        exact natRepr_head_ne_minus _ t (by rw [hr, h.1])
    · simp only [hx, hy, if_false, List.nil_append] at h
      obtain ⟨hq, hfr⟩ := splitAtChar _ _ _ _ dot_not_mem_natRepr dot_not_mem_natRepr h
      refine ⟨?_, by simp [hx, hy]⟩
      have hih := natRepr_inj hq
      have hfl := fracDigits_inj (Nat.mod_lt _ (by norm_num)) (Nat.mod_lt _ (by norm_num))
        (by simpa using hfr)
      omega
  omega

/-!
## Vertex attribute data and the `VertexItem` dedup key

Lines 506-530 build, for every triangle corner (loop), a `vertex_data`
dict with the formatted position `p`, formatted normal `n` and a dict of
up to four formatted UV pairs; `VertexItem` (lines 754-769) then forms
the dedup key string `f"{material_name} {p} {n} {uvs}"`, where the UV
dict is rendered with Python's `repr`.
-/

/-- A 3-component vector of post-rounding micro-unit values. -/
structure Vec3 where
  x : Int
  y : Int
  z : Int
deriving DecidableEq

/-- A 2-component vector (UV coordinate) of post-rounding micro-unit values. -/
structure Vec2 where
  u : Int
  v : Int
deriving DecidableEq

/-- `f"{a:.6f} {b:.6f} {c:.6f}"` (lines 509-515). -/
def fmtTriple (p : Vec3) : PyStr :=
  fmtFloat6 p.x ++ ' ' :: fmtFloat6 p.y ++ ' ' :: fmtFloat6 p.z

/-- `f"{u:.6f} {v:.6f}"` (lines 525-526). -/
def fmtPair (p : Vec2) : PyStr :=
  fmtFloat6 p.u ++ ' ' :: fmtFloat6 p.v

theorem mem_fmtPair {p : Vec2} {ch : Char} (h : ch ∈ fmtPair p) :
    ch = ' ' ∨ ch ∈ floatChars := by
  unfold fmtPair at h
  simp only [List.mem_append, List.mem_cons] at h
  rcases h with h | h | h
  · exact Or.inr (mem_fmtFloat6_floatChar h)
  · exact Or.inl h
  · exact Or.inr (mem_fmtFloat6_floatChar h)

theorem squote_not_mem_fmtPair {p : Vec2} : squote ∉ fmtPair p := by
  intro h
  rcases mem_fmtPair h with h | h
  · revert h; decide
  · revert h; decide

theorem lbrace_not_mem_fmtPair {p : Vec2} : lbrace ∉ fmtPair p := by
  intro h
  rcases mem_fmtPair h with h | h
  · revert h; decide
  · revert h; decide

/-- Python's `repr` of the UV dict `{'t0': v0, 't1': v1, ...}` with the
positional keys `t0`, `t1`, … (lines 522-526): the entries after the
opening brace, rendered in order and separated by `", "`. -/
def dictEntries : Nat → List PyStr → PyStr
  | _, [] => []
  | i, v :: vs =>
    squote :: 't' :: (natRepr i ++ squote :: ':' :: ' ' :: squote :: (v ++ squote ::
      (match vs with
       | [] => []
       | _ :: _ => ',' :: ' ' :: dictEntries (i + 1) vs)))

/-- Python's `repr` of the UV dict: `"{...}"`. -/
def dictRepr (vs : List PyStr) : PyStr :=
  lbrace :: (dictEntries 0 vs ++ [rbrace])

theorem lbrace_not_mem_dictEntries :
    ∀ (vs : List PyStr) (i : Nat), (∀ v ∈ vs, lbrace ∉ v) → lbrace ∉ dictEntries i vs := by
  intro vs
  induction vs with
  | nil => intro i _; simp [dictEntries]
  | cons v t ih =>
    intro i hv hmem
    have hvnot : lbrace ∉ v := hv v (List.mem_cons_self _ _)
    have hnat : lbrace ∉ natRepr i := fun hm => absurd (mem_natRepr_decDigit hm) (by decide)
    have c1 : lbrace ≠ squote := by decide
    have c2 : lbrace ≠ 't' := by decide
    have c3 : lbrace ≠ ':' := by decide
    have c4 : lbrace ≠ ' ' := by decide
    have c5 : lbrace ≠ ',' := by decide
    cases t with
    | nil =>
      have hshape : dictEntries i [v] =
          squote :: 't' :: (natRepr i ++ squote :: ':' :: ' ' :: squote ::
            (v ++ [squote])) := rfl
      rw [hshape] at hmem
      simp only [List.mem_cons, List.mem_append, List.not_mem_nil, or_false] at hmem
      tauto
    | cons w ws =>
      have iht : lbrace ∉ dictEntries (i + 1) (w :: ws) :=
        ih (i + 1) (fun u hu => hv u (List.mem_cons_of_mem _ hu))
      have hshape : dictEntries i (v :: w :: ws) =
          squote :: 't' :: (natRepr i ++ squote :: ':' :: ' ' :: squote :: (v ++ squote ::
            (',' :: ' ' :: dictEntries (i + 1) (w :: ws)))) := rfl
      rw [hshape] at hmem
      simp only [List.mem_cons, List.mem_append, List.not_mem_nil, or_false] at hmem
      tauto

theorem dictEntries_ne_nil (i : Nat) (v : PyStr) (vs : List PyStr) :
    dictEntries i (v :: vs) ≠ [] := by
  unfold dictEntries
  simp

theorem dictEntries_inj :
    ∀ (l1 l2 : List PyStr) (i : Nat),
      (∀ v ∈ l1, squote ∉ v) → (∀ v ∈ l2, squote ∉ v) →
      dictEntries i l1 = dictEntries i l2 → l1 = l2 := by
  intro l1
  induction l1 with
  | nil =>
    intro l2 i _ _ h
    cases l2 with
    | nil => rfl
    | cons v t => exact absurd h.symm (dictEntries_ne_nil i v t)
  | cons v1 t1 ih =>
    intro l2 i h1 h2 h
    cases l2 with
    | nil => exact absurd h (dictEntries_ne_nil i v1 t1)
    | cons v2 t2 =>
      unfold dictEntries at h
      simp only [List.cons.injEq, true_and] at h
      have h' := List.append_cancel_left h
      simp only [List.cons.injEq, true_and] at h'
      obtain ⟨hv, ht⟩ := splitAtChar _ _ _ _
        (h1 v1 (List.mem_cons_self _ _)) (h2 v2 (List.mem_cons_self _ _)) h'
      have h1' : ∀ v ∈ t1, squote ∉ v := fun u hu => h1 u (List.mem_cons_of_mem _ hu)
      have h2' : ∀ v ∈ t2, squote ∉ v := fun u hu => h2 u (List.mem_cons_of_mem _ hu)
      cases t1 with
      | nil =>
        cases t2 with
        | nil => rw [hv]
        | cons w ws => simp at ht
      | cons w1 ws1 =>
        cases t2 with
        | nil => simp at ht
        | cons w2 ws2 =>
          simp only [List.cons.injEq, true_and] at ht
          rw [hv, ih _ (i + 1) h1' h2' ht]

theorem dictRepr_inj {l1 l2 : List PyStr}
    (h1 : ∀ v ∈ l1, squote ∉ v) (h2 : ∀ v ∈ l2, squote ∉ v)
    (h : dictRepr l1 = dictRepr l2) : l1 = l2 := by
  unfold dictRepr at h
  simp only [List.cons.injEq, true_and] at h
  exact dictEntries_inj l1 l2 0 h1 h2 (List.append_cancel_right h)

/-- One triangle corner as extracted by the exporter: the owning
subset's material name and the post-rounding vertex attributes. -/
structure Corner where
  mat : PyStr
  pos : Vec3
  nrm : Vec3
  uvs : List Vec2
deriving DecidableEq

/-- The attribute data written into a `<v>` vertex entry (it does not
carry the material). -/
structure VertexRec where
  pos : Vec3
  nrm : Vec3
  uvs : List Vec2
deriving DecidableEq

def Corner.data (c : Corner) : VertexRec := ⟨c.pos, c.nrm, c.uvs⟩

/-- The `VertexItem` dedup key (lines 757-760):
`f"{material_name} {p} {n} {uv_dict_repr}"`. -/
def vertexItemStr (c : Corner) : PyStr :=
  c.mat ++ ' ' :: (fmtTriple c.pos ++ ' ' :: (fmtTriple c.nrm ++ ' ' :: dictRepr (c.uvs.map fmtPair)))

theorem floatSuffix_inj {a b : PyStr} {x y : Int}
    (h : a ++ ' ' :: fmtFloat6 x = b ++ ' ' :: fmtFloat6 y) : a = b ∧ x = y := by
  obtain ⟨h1, h2⟩ := splitAtLastChar a b _ _ space_not_mem_fmtFloat6 space_not_mem_fmtFloat6 h
  exact ⟨h1, fmtFloat6_inj h2⟩

theorem fmtPair_inj {p q : Vec2} (h : fmtPair p = fmtPair q) : p = q := by
  unfold fmtPair at h
  obtain ⟨h1, h2⟩ := floatSuffix_inj h
  cases p
  cases q
  simp_all
  exact fmtFloat6_inj h1

theorem tripleSuffix_inj {a b : PyStr} {v w : Vec3}
    (h : a ++ ' ' :: fmtTriple v = b ++ ' ' :: fmtTriple w) : a = b ∧ v = w := by
  have h3 : ((a ++ ' ' :: fmtFloat6 v.x) ++ ' ' :: fmtFloat6 v.y) ++ ' ' :: fmtFloat6 v.z =
      ((b ++ ' ' :: fmtFloat6 w.x) ++ ' ' :: fmtFloat6 w.y) ++ ' ' :: fmtFloat6 w.z := by
    unfold fmtTriple at h
    simpa [List.append_assoc] using h
  obtain ⟨h4, hz⟩ := floatSuffix_inj h3
  obtain ⟨h5, hy⟩ := floatSuffix_inj h4
  obtain ⟨h6, hx⟩ := floatSuffix_inj h5
  refine ⟨h6, ?_⟩
  cases v
  cases w
  simp_all

theorem vertexItemStr_inj {c1 c2 : Corner} (h : vertexItemStr c1 = vertexItemStr c2) :
    c1 = c2 := by
  have hq1 : ∀ v ∈ c1.uvs.map fmtPair, squote ∉ v := by
    intro v hv
    obtain ⟨p, _, hp⟩ := List.mem_map.mp hv
    exact hp ▸ squote_not_mem_fmtPair
  have hq2 : ∀ v ∈ c2.uvs.map fmtPair, squote ∉ v := by
    intro v hv
    obtain ⟨p, _, hp⟩ := List.mem_map.mp hv
    exact hp ▸ squote_not_mem_fmtPair
  have hb1 : lbrace ∉ dictEntries 0 (c1.uvs.map fmtPair) ++ [rbrace] := by
    intro hm
    rcases List.mem_append.mp hm with hm | hm
    · refine lbrace_not_mem_dictEntries _ 0 ?_ hm
      intro v hv
      obtain ⟨p, _, hp⟩ := List.mem_map.mp hv
      exact hp ▸ lbrace_not_mem_fmtPair
    · revert hm; decide
  have hb2 : lbrace ∉ dictEntries 0 (c2.uvs.map fmtPair) ++ [rbrace] := by
    intro hm
    rcases List.mem_append.mp hm with hm | hm
    · refine lbrace_not_mem_dictEntries _ 0 ?_ hm
      intro v hv
      obtain ⟨p, _, hp⟩ := List.mem_map.mp hv
      exact hp ▸ lbrace_not_mem_fmtPair
    · revert hm; decide
  have hd : ((c1.mat ++ ' ' :: (fmtTriple c1.pos ++ ' ' :: fmtTriple c1.nrm)) ++ [' ']) ++
      lbrace :: (dictEntries 0 (c1.uvs.map fmtPair) ++ [rbrace]) =
      ((c2.mat ++ ' ' :: (fmtTriple c2.pos ++ ' ' :: fmtTriple c2.nrm)) ++ [' ']) ++
      lbrace :: (dictEntries 0 (c2.uvs.map fmtPair) ++ [rbrace]) := by
    unfold vertexItemStr dictRepr at h
    simpa [List.append_assoc] using h
  obtain ⟨hpre, hdict⟩ := splitAtLastChar _ _ _ _ hb1 hb2 hd
  have huvs : c1.uvs = c2.uvs := by
    have hde := List.append_cancel_right hdict
    have := dictEntries_inj _ _ 0 hq1 hq2 hde
    have hmapinj : ∀ (u1 u2 : List Vec2), u1.map fmtPair = u2.map fmtPair → u1 = u2 := by
      intro u1
      induction u1 with
      | nil => intro u2 h; cases u2 <;> simp_all
      | cons p t ihp =>
        intro u2 h
        cases u2 with
        | nil => simp at h
        | cons q s =>
          simp only [List.map_cons, List.cons.injEq] at h
          rw [fmtPair_inj h.1, ihp s h.2]
    exact hmapinj _ _ this
  have hpre' := List.append_cancel_right hpre
  have htr : (c1.mat ++ ' ' :: fmtTriple c1.pos) ++ ' ' :: fmtTriple c1.nrm =
      (c2.mat ++ ' ' :: fmtTriple c2.pos) ++ ' ' :: fmtTriple c2.nrm := by
    simpa [List.append_assoc] using hpre'
  obtain ⟨htr2, hnrm⟩ := tripleSuffix_inj htr
  obtain ⟨hmat, hpos⟩ := tripleSuffix_inj htr2
  cases c1
  cases c2
  simp_all

/-!
## Generic dictionary and first-occurrence machinery

Python dicts keyed by strings (`added_vertices`, `self._file_indexes`,
…) are modelled as association lists in insertion order; `assocFind` is
dict lookup.  `firstOccs` and `idxOfD` are specification-side helpers:
the subsequence of first occurrences of a list, and the index of the
first occurrence of an element.
-/

def assocFind {α β : Type} [DecidableEq α] (k : α) : List (α × β) → Option β
  | [] => none
  | (k2, v) :: r => if k2 = k then some v else assocFind k r

/-- The subsequence of first occurrences of the elements of `l`, in order. -/
def firstOccs {α : Type} [DecidableEq α] (l : List α) : List α :=
  l.foldl (fun acc c => if c ∈ acc then acc else acc ++ [c]) []

/-- The index of the first occurrence of `a` in a list (meaningful when
`a` is a member). -/
def idxOfD {α : Type} [DecidableEq α] (a : α) : List α → Nat
  | [] => 0
  | b :: l => if b = a then 0 else idxOfD a l + 1

theorem foldl_firstOccs_mem {α : Type} [DecidableEq α] (a : α) :
    ∀ (l acc : List α),
      (a ∈ l.foldl (fun acc c => if c ∈ acc then acc else acc ++ [c]) acc ↔ a ∈ acc ∨ a ∈ l) := by
  intro l
  induction l with
  | nil => intro acc; simp
  | cons c t ih =>
    intro acc
    simp only [List.foldl_cons, ih, List.mem_cons]
    by_cases hc : c ∈ acc
    · simp only [hc, if_true]
      constructor
      · tauto
      · intro h
        rcases h with h | h | h
        · exact Or.inl h
        · exact Or.inl (h ▸ hc)
        · exact Or.inr h
    · simp only [hc, if_false, List.mem_append, List.mem_singleton]
      tauto

theorem mem_firstOccs {α : Type} [DecidableEq α] {a : α} {l : List α} :
    a ∈ firstOccs l ↔ a ∈ l := by
  unfold firstOccs
  rw [foldl_firstOccs_mem]
  simp

theorem firstOccs_append_one {α : Type} [DecidableEq α] (l : List α) (c : α) :
    firstOccs (l ++ [c]) =
      if c ∈ firstOccs l then firstOccs l else firstOccs l ++ [c] := by
  unfold firstOccs
  rw [List.foldl_append]
  rfl

theorem foldl_firstOccs_extra {α : Type} [DecidableEq α] :
    ∀ (m acc : List α),
      ∃ extra, m.foldl (fun acc c => if c ∈ acc then acc else acc ++ [c]) acc = acc ++ extra := by
  intro m
  induction m with
  | nil => intro acc; exact ⟨[], by simp⟩
  | cons c t ih =>
    intro acc
    simp only [List.foldl_cons]
    by_cases hc : c ∈ acc
    · simpa [hc] using ih acc
    · obtain ⟨extra, hex⟩ := ih (acc ++ [c])
      exact ⟨[c] ++ extra, by simp only [hc, if_false, hex, List.append_assoc]⟩

theorem firstOccs_append_extra {α : Type} [DecidableEq α] (l m : List α) :
    ∃ extra, firstOccs (l ++ m) = firstOccs l ++ extra := by
  unfold firstOccs
  rw [List.foldl_append]
  exact foldl_firstOccs_extra m _

theorem foldl_firstOccs_nodup {α : Type} [DecidableEq α] :
    ∀ (l acc : List α), acc.Nodup →
      (l.foldl (fun acc c => if c ∈ acc then acc else acc ++ [c]) acc).Nodup := by
  intro l
  induction l with
  | nil => intro acc h; simpa using h
  | cons c t ih =>
    intro acc h
    simp only [List.foldl_cons]
    by_cases hc : c ∈ acc
    · simpa [hc] using ih acc h
    · have hnd : (acc ++ [c]).Nodup := by
        refine List.Nodup.append h (List.nodup_singleton c) ?_
        intro x hx hxc
        rw [List.mem_singleton] at hxc
        exact hc (hxc ▸ hx)
      simpa [hc] using ih (acc ++ [c]) hnd

theorem firstOccs_nodup {α : Type} [DecidableEq α] (l : List α) : (firstOccs l).Nodup :=
  foldl_firstOccs_nodup l [] List.nodup_nil

theorem idxOfD_lt_length {α : Type} [DecidableEq α] {a : α} {l : List α} (h : a ∈ l) :
    idxOfD a l < l.length := by
  induction l with
  | nil => simp at h
  | cons b t ih =>
    unfold idxOfD
    by_cases hb : b = a
    · simp [hb]
    · simp only [hb, if_false, List.length_cons]
      have : a ∈ t := by
        rcases List.mem_cons.mp h with h' | h'
        · exact absurd h'.symm hb
        · exact h'
      exact Nat.succ_lt_succ (ih this)

theorem idxOfD_append {α : Type} [DecidableEq α] {a : α} {l : List α} (m : List α)
    (h : a ∈ l) : idxOfD a (l ++ m) = idxOfD a l := by
  induction l with
  | nil => simp at h
  | cons b t ih =>
    unfold idxOfD
    by_cases hb : b = a
    · simp [hb]
    · have : a ∈ t := by
        rcases List.mem_cons.mp h with h' | h'
        · exact absurd h'.symm hb
        · exact h'
      simp [hb, ih this]

theorem idxOfD_concat_self {α : Type} [DecidableEq α] {a : α} {l : List α} (h : a ∉ l) :
    idxOfD a (l ++ [a]) = l.length := by
  induction l with
  | nil => simp [idxOfD]
  | cons b t ih =>
    unfold idxOfD
    have hb : b ≠ a := fun hba => h (hba ▸ List.mem_cons_self b t)
    have ht : a ∉ t := fun hm => h (List.mem_cons_of_mem _ hm)
    simp [hb, ih ht]

theorem getElem?_idxOfD {α : Type} [DecidableEq α] {a : α} {l : List α} (h : a ∈ l) :
    l[idxOfD a l]? = some a := by
  induction l with
  | nil => simp at h
  | cons b t ih =>
    unfold idxOfD
    by_cases hb : b = a
    · simp [hb]
    · have : a ∈ t := by
        rcases List.mem_cons.mp h with h' | h'
        · exact absurd h'.symm hb
        · exact h'
      simp [hb, ih this]

theorem idxOfD_inj {α : Type} [DecidableEq α] {a b : α} {l : List α}
    (ha : a ∈ l) (hb : b ∈ l) (hne : a ≠ b) : idxOfD a l ≠ idxOfD b l := by
  intro h
  have h1 := getElem?_idxOfD ha
  have h2 := getElem?_idxOfD hb
  rw [h] at h1
  rw [h2] at h1
  exact hne (Option.some.inj h1).symm

/-- Lookup into an association list mapping each element of a corner list
to its key and a value: the first matching key identifies the corner
itself, because `vertexItemStr` is injective. -/
theorem assocFind_vertexKey (g : Corner → Nat) (c : Corner) :
    ∀ (F : List Corner),
      assocFind (vertexItemStr c) (F.map (fun d => (vertexItemStr d, g d))) =
        if c ∈ F then some (g c) else none := by
  intro F
  induction F with
  | nil => simp [assocFind]
  | cons d t ih =>
    simp only [List.map_cons, assocFind]
    by_cases hd : vertexItemStr d = vertexItemStr c
    · have : d = c := vertexItemStr_inj hd
      simp [this, hd]
    · have hne : d ≠ c := fun h => hd (h ▸ rfl)
      have hcd : ¬c = d := fun h => hne h.symm
      simp only [hd, if_false, ih, List.mem_cons]
      by_cases hc : c ∈ t
      · simp [hc]
      · simp [hc, hcd]

/-!
## The vertex dedup loop (lines 487-552)

`DState` is the running dedup state: the `added_vertices` dict, the
emitted vertex list and `vertex_counter`.  `cornerStep` is the body of
the inner loop of lines 530-545 for one corner; it also reports whether
a new vertex entry was emitted (the `number_of_vertices += 1` branch).
`dedupRun` runs it over a list of corners, returning the new-vertex
count and the `vi` indices of the corners.
-/

structure DState where
  added : List (PyStr × Nat)
  verts : List VertexRec
  counter : Nat
deriving DecidableEq

/-- Lines 530-545 for a single corner: look the `VertexItem` key up in
`added_vertices`; if absent, emit a vertex entry and count it. -/
def cornerStep (st : DState) (c : Corner) : DState × Bool × Nat :=
  match assocFind (vertexItemStr c) st.added with
  | some i => (st, false, i)
  | none =>
    (⟨st.added ++ [(vertexItemStr c, st.counter)], st.verts ++ [c.data], st.counter + 1⟩,
     true, st.counter)

/-- The corner loop over a list of corners; returns the final state, the
number of newly emitted vertices, and the assigned vertex indices. -/
def dedupRun (st : DState) : List Corner → DState × Nat × List Nat
  | [] => (st, 0, [])
  | c :: cs =>
    let r1 := cornerStep st c
    let r2 := dedupRun r1.1 cs
    (r2.1, (if r1.2.1 then 1 else 0) + r2.2.1, r1.2.2 :: r2.2.2)

/-- The dedup-state invariant: after processing the corner list
`processed`, the dict, the vertex list and the counter are all the
first-occurrence data of `processed`. -/
def DInv (processed : List Corner) (st : DState) : Prop :=
  st.added = (firstOccs processed).map
      (fun d => (vertexItemStr d, idxOfD d (firstOccs processed))) ∧
  st.verts = (firstOccs processed).map Corner.data ∧
  st.counter = (firstOccs processed).length

theorem cornerStep_spec {processed : List Corner} {st : DState} (c : Corner)
    (h : DInv processed st) :
    DInv (processed ++ [c]) (cornerStep st c).1 ∧
    (cornerStep st c).2.2 = idxOfD c (firstOccs (processed ++ [c])) ∧
    (cornerStep st c).2.1 = !(decide (c ∈ firstOccs processed)) := by
  obtain ⟨ha, hv, hc⟩ := h
  unfold cornerStep
  rw [ha, assocFind_vertexKey]
  by_cases hmem : c ∈ firstOccs processed
  · have hfo : firstOccs (processed ++ [c]) = firstOccs processed := by
      rw [firstOccs_append_one]
      simp [hmem]
    simp only [hmem, if_true]
    refine ⟨⟨?_, ?_, ?_⟩, ?_, ?_⟩
    · rw [ha, hfo]
    · rw [hv, hfo]
    · rw [hc, hfo]
    · rw [hfo]
    · simp [hmem]
  · have hfo : firstOccs (processed ++ [c]) = firstOccs processed ++ [c] := by
      rw [firstOccs_append_one]
      simp [hmem]
    simp only [hmem, if_false]
    refine ⟨⟨?_, ?_, ?_⟩, ?_, ?_⟩
    · rw [hfo]
      simp only [List.map_append, List.map_cons, List.map_nil]
      congr 1
      · apply List.map_congr_left
        intro d hd
        rw [idxOfD_append _ hd]
      · rw [idxOfD_concat_self hmem, hc]
    · rw [hfo, hv]
      simp
    · rw [hfo, hc]
      simp
    · rw [hfo, hc, idxOfD_concat_self hmem]
    · simp [hmem]

theorem dedupRun_spec :
    ∀ (cs processed : List Corner) (st : DState), DInv processed st →
      DInv (processed ++ cs) (dedupRun st cs).1 ∧
      (dedupRun st cs).2.2 = cs.map (fun c => idxOfD c (firstOccs (processed ++ cs))) := by
  intro cs
  induction cs with
  | nil => intro processed st h; simpa [dedupRun] using h
  | cons c t ih =>
    intro processed st h
    obtain ⟨h1, h2, h3⟩ := cornerStep_spec c h
    obtain ⟨h4, h5⟩ := ih (processed ++ [c]) _ h1
    unfold dedupRun
    constructor
    · simpa [List.append_assoc] using h4
    · simp only [List.map_cons, List.cons.injEq]
      constructor
      · rw [h2]
        have hmem : c ∈ firstOccs (processed ++ [c]) := by
          rw [mem_firstOccs]
          simp
        obtain ⟨extra, hex⟩ := firstOccs_append_extra (processed ++ [c]) t
        rw [show processed ++ c :: t = (processed ++ [c]) ++ t by simp, hex,
          idxOfD_append _ hmem]
      · rw [h5]
        apply List.map_congr_left
        intro d _
        rw [show processed ++ c :: t = (processed ++ [c]) ++ t by simp]

/-- The counter grows by exactly the reported number of new vertices
(the coupling of `vertex_counter` and `number_of_vertices`,
lines 542-543). -/
theorem dedupRun_counter (cs : List Corner) :
    ∀ st : DState, (dedupRun st cs).1.counter = st.counter + (dedupRun st cs).2.1 := by
  induction cs with
  | nil => intro st; simp [dedupRun]
  | cons c t ih =>
    intro st
    unfold dedupRun
    simp only
    rw [ih]
    unfold cornerStep
    cases assocFind (vertexItemStr c) st.added
    · simp
      omega
    · simp

/-!
## Mesh data and the subset loop (lines 412-558)

The evaluated Blender mesh is modelled with the fields the exporter
reads: `vertices`, `loops` (vertex index and split normal), up to
several per-loop UV layers, the computed `loop_triangles` and the
material name list.  Out-of-range indexing, which would raise a Python
`IndexError`, is modelled with a default value; the claims only concern
in-range data.
-/

structure LoopRec where
  vertexIndex : Nat
  normal : Vec3
deriving DecidableEq

structure UVLayer where
  data : List Vec2
deriving DecidableEq

structure LoopTri where
  loops : List Nat
  materialIndex : Nat
deriving DecidableEq

structure PyMesh where
  vertices : List Vec3
  loops : List LoopRec
  uvLayers : List UVLayer
  loopTriangles : List LoopTri
  materials : List PyStr
deriving DecidableEq

def defVec3 : Vec3 := ⟨0, 0, 0⟩

def defVec2 : Vec2 := ⟨0, 0⟩

def defLoop : LoopRec := ⟨0, defVec3⟩

/-- Lines 506-530: the corner data extracted for one loop index of a
triangle in the subset of material `mat`: position and split normal
(post-rounding), and the UV pairs of the first four UV layers
(`if count < 4`, line 523; further layers are dropped with a
diagnostic). -/
def cornerOfLoop (mesh : PyMesh) (mat : PyStr) (li : Nat) : Corner :=
  let lp := mesh.loops.getD li defLoop
  { mat := mat
    pos := mesh.vertices.getD lp.vertexIndex defVec3
    nrm := lp.normal
    uvs := (mesh.uvLayers.take 4).map (fun layer => layer.data.getD li defVec2) }

/-- One emitted `<Subset>` element (lines 496-498 and 550-551). -/
structure SubsetRec where
  firstIndex : Nat
  firstVertex : Nat
  numIndices : Nat
  numVertices : Nat
deriving DecidableEq

/-- The accumulating state of the subset loop of lines 487-552: the
dedup state, `indices_total`, the emitted subsets and the emitted
triangle `vi` index lists. -/
structure CompileAcc where
  dst : DState
  indicesTotal : Nat
  subsets : List SubsetRec
  triangles : List (List Nat)
deriving DecidableEq

/-- Lines 501-548, one triangle: process its three corners through the
vertex dedup, append the `vi` list, and add 3 to `number_of_indices`.
The accumulator is `(dedup state, number_of_indices, number_of_vertices,
vi lists)`. -/
def triangleFold (mesh : PyMesh) (mat : PyStr)
    (p : DState × Nat × Nat × List (List Nat)) (t : LoopTri) :
    DState × Nat × Nat × List (List Nat) :=
  let corners := t.loops.map (cornerOfLoop mesh mat)
  let r := dedupRun p.1 corners
  (r.1, p.2.1 + 3, p.2.2.1 + r.2.1, p.2.2.2 ++ [r.2.2])

/-- Lines 493-552, one subset: record `firstIndex`/`firstVertex` from
the running totals, run the triangle loop, then record
`numIndices`/`numVertices` and advance `indices_total`. -/
def processSubset (mesh : PyMesh) (acc : CompileAcc) (g : PyStr × List LoopTri) : CompileAcc :=
  let firstIndex := acc.indicesTotal
  let firstVertex := acc.dst.counter
  let r := g.2.foldl (triangleFold mesh g.1) (acc.dst, 0, 0, [])
  { dst := r.1
    indicesTotal := acc.indicesTotal + r.2.1
    subsets := acc.subsets ++ [⟨firstIndex, firstVertex, r.2.1, r.2.2.1⟩]
    triangles := acc.triangles ++ r.2.2.2 }

/-- The whole subset loop over the grouped triangles, starting from the
empty dedup state and zero counters. -/
def compileSubsets (mesh : PyMesh) (groups : List (PyStr × List LoopTri)) : CompileAcc :=
  groups.foldl (processSubset mesh) ⟨⟨[], [], 0⟩, 0, [], []⟩

theorem triangleFold_run (mesh : PyMesh) (mat : PyStr) :
    ∀ (tris : List LoopTri) (p : DState × Nat × Nat × List (List Nat)),
      (tris.foldl (triangleFold mesh mat) p).1.counter + p.2.2.1 =
        p.1.counter + (tris.foldl (triangleFold mesh mat) p).2.2.1 := by
  intro tris
  induction tris with
  | nil => intro p; simp
  | cons t r ih =>
    intro p
    simp only [List.foldl_cons]
    have h1 := ih (triangleFold mesh mat p t)
    have h2 := dedupRun_counter (t.loops.map (cornerOfLoop mesh mat)) p.1
    unfold triangleFold at *
    simp only at h1 ⊢
    omega

/-- The relation between two consecutive emitted subsets (the
contiguous-packing property). -/
def SubsetStep (s t : SubsetRec) : Prop :=
  t.firstIndex = s.firstIndex + s.numIndices ∧ t.firstVertex = s.firstVertex + s.numVertices

/-- Invariant of the subset loop: the emitted subsets are contiguous and
the running totals continue the last subset. -/
def SubInv (acc : CompileAcc) : Prop :=
  List.Chain' SubsetStep acc.subsets ∧
    ∀ s, acc.subsets.getLast? = some s →
      s.firstIndex + s.numIndices = acc.indicesTotal ∧
      s.firstVertex + s.numVertices = acc.dst.counter

theorem processSubset_inv (mesh : PyMesh) (acc : CompileAcc) (g : PyStr × List LoopTri)
    (h : SubInv acc) : SubInv (processSubset mesh acc g) := by
  obtain ⟨hchain, hlast⟩ := h
  unfold processSubset SubInv
  simp only
  set r := g.2.foldl (triangleFold mesh g.1) (acc.dst, 0, 0, []) with hr
  have hcnt : r.1.counter = acc.dst.counter + r.2.2.1 := by
    have := triangleFold_run mesh g.1 g.2 (acc.dst, 0, 0, [])
    rw [← hr] at this
    simpa using this
  constructor
  · rw [List.chain'_append]
    refine ⟨hchain, List.chain'_singleton _, ?_⟩
    intro s hs t ht
    simp only [List.head?_cons, Option.mem_def, Option.some.injEq] at ht
    have := hlast s (by simpa using hs)
    constructor
    · rw [← ht]
      exact this.1.symm
    · rw [← ht]
      exact this.2.symm
  · intro s hs
    rw [List.getLast?_concat] at hs
    cases hs
    exact ⟨rfl, hcnt.symm⟩

theorem compileSubsets_inv (mesh : PyMesh) (groups : List (PyStr × List LoopTri)) :
    SubInv (compileSubsets mesh groups) := by
  unfold compileSubsets
  have hbase : SubInv ⟨⟨[], [], 0⟩, 0, [], []⟩ := by
    constructor
    · simp [List.Chain']
    · intro s hs
      simp at hs
  generalize hst : (⟨⟨[], [], 0⟩, 0, [], []⟩ : CompileAcc) = st at hbase ⊢
  clear hst
  induction groups generalizing st with
  | nil => simpa using hbase
  | cons g t ih =>
    simp only [List.foldl_cons]
    exact ih _ (processSubset_inv mesh st g hbase)

/-- Claim C2: for every compiled mesh and every pair of consecutive
emitted subsets `k` and `k+1`, subset `k+1`'s `firstIndex` equals subset
`k`'s `firstIndex + numIndices`, and subset `k+1`'s `firstVertex` equals
subset `k`'s `firstVertex + numVertices` — the subsets pack the
triangle-index and vertex lists contiguously. -/
theorem subsets_contiguous (mesh : PyMesh) (groups : List (PyStr × List LoopTri))
    (k : Nat) (s t : SubsetRec)
    (hs : (compileSubsets mesh groups).subsets[k]? = some s)
    (ht : (compileSubsets mesh groups).subsets[k + 1]? = some t) :
    t.firstIndex = s.firstIndex + s.numIndices ∧
    t.firstVertex = s.firstVertex + s.numVertices := by
  have h := (compileSubsets_inv mesh groups).1
  rw [List.chain'_iff_get] at h
  have hkt : k + 1 < (compileSubsets mesh groups).subsets.length :=
    (List.getElem?_eq_some.mp ht).1
  have hgs : (compileSubsets mesh groups).subsets[k] = s := (List.getElem?_eq_some.mp hs).2
  have hgt : (compileSubsets mesh groups).subsets[k + 1] = t := (List.getElem?_eq_some.mp ht).2
  have := h k (by omega)
  simp only [List.get_eq_getElem] at this
  rw [hgs, hgt] at this
  exact this

/-- A mesh with four vertices and two triangles of different materials,
used to instantiate the hypotheses of the contiguity theorem. -/
def demoMesh : PyMesh :=
  { vertices := [⟨0, 0, 0⟩, ⟨1000000, 0, 0⟩, ⟨0, 1000000, 0⟩, ⟨0, 0, 1000000⟩]
    loops := [⟨0, defVec3⟩, ⟨1, defVec3⟩, ⟨2, defVec3⟩, ⟨0, defVec3⟩, ⟨1, defVec3⟩, ⟨3, defVec3⟩]
    uvLayers := []
    loopTriangles := [⟨[0, 1, 2], 0⟩, ⟨[3, 4, 5], 1⟩]
    materials := [pyStr ("MatA"), pyStr ("MatB")] }

/-- The two subsets produced by grouping `demoMesh`'s triangles by
material. -/
def demoGroups : List (PyStr × List LoopTri) :=
  [(pyStr ("MatA"), [⟨[0, 1, 2], 0⟩]), (pyStr ("MatB"), [⟨[3, 4, 5], 1⟩])]

/-- Witness for `subsets_contiguous` at the concrete mesh `demoMesh`. -/
theorem subsets_contiguous_witness :
    (compileSubsets demoMesh demoGroups).subsets[0]? = some ⟨0, 0, 3, 3⟩ ∧
    (compileSubsets demoMesh demoGroups).subsets[1]? = some ⟨3, 3, 3, 3⟩ ∧
    ((3 : Nat) = 0 + 3 ∧ (3 : Nat) = 0 + 3) :=
  ⟨by decide, by decide,
   subsets_contiguous demoMesh demoGroups 0 ⟨0, 0, 3, 3⟩ ⟨3, 3, 3, 3⟩ (by decide) (by decide)⟩

/-- Claim C3: within one compiled mesh, the vertex dedup of the corner
loop (lines 530-545) assigns every corner the index of the first corner
with identical post-rounding position, normal, UV set and material
(`idxOfD` into `firstOccs`); the emitted vertex list is exactly the
first-occurrence corners in first-seen order; each corner's assigned
index points at the entry holding its own data (so a class of identical
corners shares exactly one entry); and corners differing in at least one
field are assigned distinct entries. -/
theorem vertex_dedup_correct (cs : List Corner) :
    (dedupRun ⟨[], [], 0⟩ cs).2.2 = cs.map (fun c => idxOfD c (firstOccs cs)) ∧
    (dedupRun ⟨[], [], 0⟩ cs).1.verts = (firstOccs cs).map Corner.data ∧
    (∀ c ∈ cs, idxOfD c (firstOccs cs) < ((firstOccs cs).map Corner.data).length ∧
      ((firstOccs cs).map Corner.data)[idxOfD c (firstOccs cs)]? = some c.data) ∧
    (∀ c1 ∈ cs, ∀ c2 ∈ cs, c1 ≠ c2 →
      idxOfD c1 (firstOccs cs) ≠ idxOfD c2 (firstOccs cs)) := by
  have hinit : DInv [] (⟨[], [], 0⟩ : DState) := by
    refine ⟨?_, ?_, ?_⟩ <;> simp [firstOccs]
  obtain ⟨hinv, hassign⟩ := dedupRun_spec cs [] _ hinit
  simp only [List.nil_append] at hinv hassign
  refine ⟨hassign, hinv.2.1, ?_, ?_⟩
  · intro c hc
    have hmem : c ∈ firstOccs cs := mem_firstOccs.mpr hc
    constructor
    · rw [List.length_map]
      exact idxOfD_lt_length hmem
    · rw [List.getElem?_map, getElem?_idxOfD hmem]
      rfl
  · intro c1 h1 c2 h2 hne
    exact idxOfD_inj (mem_firstOccs.mpr h1) (mem_firstOccs.mpr h2) hne

/-- A corner used by the dedup witness. -/
def demoCornerA : Corner := ⟨pyStr ("MatA"), ⟨1000000, 0, 0⟩, ⟨0, 0, 1000000⟩, [⟨500000, 500000⟩]⟩

/-- A corner differing from `demoCornerA` only in its material. -/
def demoCornerB : Corner := ⟨pyStr ("MatB"), ⟨1000000, 0, 0⟩, ⟨0, 0, 1000000⟩, [⟨500000, 500000⟩]⟩

/-- A concrete corner stream with a repeated corner and a corner
differing only in the material field. -/
def demoCorners : List Corner := [demoCornerA, demoCornerB, demoCornerA]

/-- Witness for `vertex_dedup_correct` at the concrete corner stream
`demoCorners`. -/
theorem vertex_dedup_correct_witness :
    (idxOfD demoCornerA (firstOccs demoCorners) <
        ((firstOccs demoCorners).map Corner.data).length ∧
      ((firstOccs demoCorners).map Corner.data)[idxOfD demoCornerA (firstOccs demoCorners)]? =
        some demoCornerA.data) ∧
    idxOfD demoCornerA (firstOccs demoCorners) ≠ idxOfD demoCornerB (firstOccs demoCorners) :=
  ⟨(vertex_dedup_correct demoCorners).2.2.1 demoCornerA (by decide),
   (vertex_dedup_correct demoCorners).2.2.2 demoCornerA (by decide) demoCornerB (by decide)
     (by decide)⟩

/-!
## Exporter state (lines 38-66)

The exporter singleton's mutable state: the `Files`, `Materials` and
`Shapes` sections of the XML tree, the `self.ids` counters, the
`shape_material_indexes` dict and the `_file_indexes` dict.
-/

structure MaterialEntry where
  name : PyStr
  materialId : Nat
deriving DecidableEq

structure ShapeEntry where
  name : PyStr
  shapeId : Nat
  compiled : CompileAcc
deriving DecidableEq

structure FileEntry where
  fileId : Nat
  filename : PyStr
deriving DecidableEq

structure ExpState where
  shapes : List ShapeEntry
  materials : List MaterialEntry
  files : List FileEntry
  shapeId : Nat
  materialId : Nat
  fileId : Nat
  shapeMaterialIndexes : List (Nat × PyStr)
  fileIndexes : List (PyStr × Nat)
deriving DecidableEq

/-- Lines 44-50: empty sections, the three resource counters start
at 1. -/
def initExpState : ExpState := ⟨[], [], [], 1, 1, 1, [], []⟩

/-- Update an association list in place (a Python dict write to an
existing key). -/
def assocSet {α β : Type} [DecidableEq α] (k : α) (v : β) : List (α × β) → List (α × β)
  | [] => [(k, v)]
  | (k2, v2) :: r => if k2 = k then (k, v) :: r else (k2, v2) :: assocSet k v r

theorem assocFind_append_of_none {α β : Type} [DecidableEq α] {k : α}
    {l1 : List (α × β)} (l2 : List (α × β)) (h : assocFind k l1 = none) :
    assocFind k (l1 ++ l2) = assocFind k l2 := by
  induction l1 with
  | nil => simp
  | cons e r ih =>
    obtain ⟨k2, v⟩ := e
    simp only [assocFind, List.cons_append] at h ⊢
    by_cases hk : k2 = k
    · simp [hk] at h
    · simp only [hk, if_false] at h ⊢
      exact ih h

theorem assocFind_eq_none_iff {α β : Type} [DecidableEq α] {k : α} {l : List (α × β)} :
    assocFind k l = none ↔ k ∉ l.map Prod.fst := by
  induction l with
  | nil => simp [assocFind]
  | cons e r ih =>
    obtain ⟨k2, v⟩ := e
    unfold assocFind
    by_cases hk : k2 = k
    · simp [hk]
    · simp only [hk, if_false, ih, List.map_cons, List.mem_cons]
      constructor
      · intro h hm
        rcases hm with hm | hm
        · exact hk hm.symm
        · exact h hm
      · intro h hm
        exact h (Or.inr hm)

/-!
## Material registration and triangle grouping (lines 268-351, 462-483)
-/

/-- Lines 268-274 and 349-351: find-or-create the `Material` element
with this name and return its `materialId`.  The shading-graph walk of
lines 276-347 only fills the element's appearance attributes (colors and
texture file references); it is not modelled here, since no claim in
scope concerns those attributes. -/
def xmlAddMaterial (st : ExpState) (name : PyStr) : ExpState × Nat :=
  match st.materials.find? (fun m => m.name == name) with
  | some m => (st, m.materialId)
  | none =>
    ({ st with
        materials := st.materials ++ [⟨name, st.materialId⟩]
        materialId := st.materialId + 1 },
      st.materialId)

/-- Lines 477-480: append this material id to the
`shape_material_indexes` comma string of the shape. -/
def addShapeMaterialIndex (st : ExpState) (sid mid : Nat) : ExpState :=
  match assocFind sid st.shapeMaterialIndexes with
  | some s =>
    { st with shapeMaterialIndexes := assocSet sid (s ++ ',' :: natRepr mid) st.shapeMaterialIndexes }
  | none =>
    { st with shapeMaterialIndexes := st.shapeMaterialIndexes ++ [(sid, natRepr mid)] }

/-- Lines 469-483, one triangle: group it under its material's name; on
the first triangle of a material, register the material and extend the
shape's material id string. -/
def groupTrianglesStep (materials : List PyStr) (sid : Nat)
    (p : ExpState × List (PyStr × List LoopTri)) (t : LoopTri) :
    ExpState × List (PyStr × List LoopTri) :=
  let name := materials.getD t.materialIndex []
  match assocFind name p.2 with
  | some tris => (p.1, assocSet name (tris ++ [t]) p.2)
  | none =>
    let r := xmlAddMaterial p.1 name
    let st2 := addShapeMaterialIndex r.1 sid r.2
    (st2, p.2 ++ [(name, [t])])

/-!
## Shape compilation and the shape cache (lines 412-566)
-/

/-- Lines 412-566, `_xml_scene_object_shape` for one node: look the mesh
data name up under `Shapes`; if present, reuse its `shapeId`, otherwise
compile the mesh (grouping, subsets, vertex dedup) into a new
`IndexedTriangleSet` entry.  Returns the new state, the `shapeId`
written to the node element (line 565) and the `materialIds` string
(line 566; `none` models the `KeyError` a mesh that produced no subsets
would raise there). -/
def sceneObjectShape (st : ExpState) (meshName : PyStr) (mesh : PyMesh) :
    ExpState × Nat × Option PyStr :=
  match st.shapes.find? (fun e => e.name == meshName) with
  | some e => (st, e.shapeId, assocFind e.shapeId st.shapeMaterialIndexes)
  | none =>
    let sid := st.shapeId
    let st1 := { st with shapeId := st.shapeId + 1 }
    let mats := if mesh.materials.isEmpty then [pyStr ("i3d_default_material")]
                else mesh.materials
    let r := mesh.loopTriangles.foldl (groupTrianglesStep mats sid) (st1, [])
    let compiled := compileSubsets mesh r.2
    let st2 := { r.1 with shapes := r.1.shapes ++ [⟨meshName, sid, compiled⟩] }
    (st2, sid, assocFind sid st2.shapeMaterialIndexes)

theorem groupTrianglesStep_shapes (materials : List PyStr) (sid : Nat)
    (p : ExpState × List (PyStr × List LoopTri)) (t : LoopTri) :
    (groupTrianglesStep materials sid p t).1.shapes = p.1.shapes := by
  unfold groupTrianglesStep xmlAddMaterial addShapeMaterialIndex
  dsimp only
  split
  · rfl
  · split
    · split
      · rfl
      · rfl
    · split
      · rfl
      · rfl

theorem groupTriangles_shapes (materials : List PyStr) (sid : Nat) :
    ∀ (tris : List LoopTri) (p : ExpState × List (PyStr × List LoopTri)),
      (tris.foldl (groupTrianglesStep materials sid) p).1.shapes = p.1.shapes := by
  intro tris
  induction tris with
  | nil => intro p; rfl
  | cons t r ih =>
    intro p
    simp only [List.foldl_cons]
    rw [ih, groupTrianglesStep_shapes]

/-- Claim C4: compiling geometry for the same mesh-data identity a
second time within one export returns the same `shapeId`, adds no second
entry under `Shapes`, and recomputes nothing: the second call is a pure
cache hit that leaves the whole exporter state unchanged and returns the
same `shapeId` and `materialIds`. -/
theorem shape_cache_idempotent (st : ExpState) (meshName : PyStr) (mesh : PyMesh) :
    sceneObjectShape (sceneObjectShape st meshName mesh).1 meshName mesh =
      sceneObjectShape st meshName mesh := by
  unfold sceneObjectShape
  cases hfind : st.shapes.find? (fun e => e.name == meshName) with
  | some e => simp [hfind]
  | none =>
    have hff : ∀ (l : List ShapeEntry) (e2 : ShapeEntry),
        l.find? (fun e => e.name == meshName) = none → e2.name = meshName →
        (l ++ [e2]).find? (fun e => e.name == meshName) = some e2 := by
      intro l e2 hl he
      rw [List.find?_append, hl]
      simp [List.find?, he]
    simp only [hfind]
    rw [groupTriangles_shapes]
    rw [hff st.shapes _ hfind rfl]

/-!
## Python string primitives used by `_xml_add_file`

`str.index`, `str.replace`, `str.count`, `str.rfind` and slicing are
modelled with the semantics Python gives them (non-overlapping
left-to-right replacement; the empty pattern matches at every
boundary).
-/

/-- Does `s` start with `pat`? -/
def leadsWith : PyStr → PyStr → Bool
  | [], _ => true
  | _ :: _, [] => false
  | p :: ps, c :: cs => p == c && leadsWith ps cs

/-- `str.index` / `str.find`: index of the first occurrence of `pat` in
the suffix of `s`, offset by `i`. -/
def pyFindSubAux (pat : PyStr) : PyStr → Nat → Option Nat
  | [], i => if leadsWith pat [] then some i else none
  | c :: t, i => if leadsWith pat (c :: t) then some i else pyFindSubAux pat t (i + 1)

/-- `s.index(pat)` as an `Option` (Python raises `ValueError` on a miss,
caught at lines 365-368). -/
def pyFindSub (s pat : PyStr) : Option Nat := pyFindSubAux pat s 0

/-- Non-overlapping left-to-right replacement, with enough fuel to
consume `s`. -/
def pyReplaceAux (pat repl : PyStr) : Nat → PyStr → PyStr
  | 0, s => s
  | f + 1, s =>
    if leadsWith pat s then repl ++ pyReplaceAux pat repl f (s.drop pat.length)
    else
      match s with
      | [] => []
      | c :: t => c :: pyReplaceAux pat repl f t

/-- `s.replace(pat, repl)`: Python replaces every non-overlapping
occurrence; an empty pattern inserts `repl` at every boundary. -/
def pyReplace (s pat repl : PyStr) : PyStr :=
  match pat with
  | [] => repl ++ s.flatMap (fun c => c :: repl)
  | _ :: _ => pyReplaceAux pat repl s.length s

/-- Non-overlapping occurrence counting with fuel. -/
def pyCountAux (pat : PyStr) : Nat → PyStr → Nat
  | 0, _ => 0
  | f + 1, s =>
    if leadsWith pat s then 1 + pyCountAux pat f (s.drop pat.length)
    else
      match s with
      | [] => 0
      | _ :: t => pyCountAux pat f t

/-- `s.count(pat)`: Python counts non-overlapping occurrences; the empty
pattern matches at every boundary. -/
def pyCount (s pat : PyStr) : Nat :=
  match pat with
  | [] => s.length + 1
  | _ :: _ => pyCountAux pat s.length s

/-- The index of the last occurrence of a character (`str.rfind` with a
single-character needle; `none` models Python's `-1`). -/
def lastIdxOf (c : Char) : PyStr → Option Nat
  | [] => none
  | h :: t =>
    match lastIdxOf c t with
    | some i => some (i + 1)
    | none => if h = c then some 0 else none

/-- `s[s.rfind(c) + 1 : len(s)]` — the basename slice of line 359. -/
def pyAfterLast (c : Char) (s : PyStr) : PyStr :=
  match lastIdxOf c s with
  | some i => s.drop (i + 1)
  | none => s

/-- `s[0 : s.rfind(c) + 1]` — the directory slice of lines 361 and 382
(`rfind = -1` gives the empty slice). -/
def pyTakeThroughLast (c : Char) (s : PyStr) : PyStr :=
  match lastIdxOf c s with
  | some i => s.take (i + 1)
  | none => []

/-- `s[a:b]` for non-negative bounds. -/
def pySlice (s : PyStr) (a b : Nat) : PyStr := (s.take b).drop a

/-!
## File registration (lines 353-410)
-/

inductive FileStructure
  | FLAT
  | MODHUB
  | BLENDER
deriving DecidableEq

/-- The configuration consumed by `_xml_add_file`:
`bpy.context.scene.i3dio.copy_files`, `...file_structure` and the
`file_folder` parameter (default `'textures'`). -/
structure FileCfg where
  copyFiles : Bool
  fileStructure : FileStructure
  fileFolder : PyStr
deriving DecidableEq

/-- Lines 353-384: the resolved registration key of a file reference.
`filepathAbs` stands for the host call `bpy.path.abspath(filepath)` and
is passed in.  If the absolute path contains the `'data\shared'` marker,
everything up to the marker is rewritten to `'$'` (lines 364-368, via
`str.replace` on the prefix).  Otherwise, when file copying is enabled,
the key becomes the copy destination `output_dir + filename`
(lines 371-384).  The physical copy of lines 390-397 only touches the
file system, never the key, and is not modelled.  (On an empty resolved
string, line 371 would raise `IndexError`; `headD` with a non-`'$'`
default stands in for that unreachable edge.) -/
def resolveFile (cfg : FileCfg) (filepath filepathAbs : PyStr) : PyStr :=
  let filename := pyAfterLast '\\' filepathAbs
  let resolved0 :=
    match pyFindSub filepathAbs (pyStr ("data\\shared")) with
    | some idx => pyReplace filepathAbs (filepathAbs.take idx) (pyStr ("$"))
    | none => filepathAbs
  if resolved0.headD ' ' ≠ '$' ∧ cfg.copyFiles = true then
    let outputDir :=
      match cfg.fileStructure with
      | .FLAT => []
      | .MODHUB => cfg.fileFolder ++ ['\\']
      | .BLENDER =>
        if pyCount filepath (pyStr ("..\\")) ≤ 3 then
          pySlice filepath 2
            (match lastIdxOf '\\' filepath with
             | some i => i + 1
             | none => 0)
        else pyTakeThroughLast '\\' filepathAbs
    outputDir ++ filename
  else resolved0

/-- Lines 399-410: look the resolved path up in `self._file_indexes`;
on a hit return the registered `fileId`, otherwise create the `File`
element, register the path under `self.ids['file']` and advance the
counter. -/
def xmlAddFile (cfg : FileCfg) (st : ExpState) (filepath filepathAbs : PyStr) :
    ExpState × Nat :=
  let resolved := resolveFile cfg filepath filepathAbs
  match assocFind resolved st.fileIndexes with
  | some fid => (st, fid)
  | none =>
    ({ st with
        files := st.files ++ [⟨st.fileId, resolved⟩]
        fileIndexes := st.fileIndexes ++ [(resolved, st.fileId)]
        fileId := st.fileId + 1 },
      st.fileId)

/-- A run of `_xml_add_file` calls from the initial exporter state. -/
def addFilesRun (cfg : FileCfg) (inputs : List (PyStr × PyStr)) : ExpState :=
  inputs.foldl (fun st pq => (xmlAddFile cfg st pq.1 pq.2).1) initExpState

/-- Invariant of the file table: the `File` elements and the
`_file_indexes` keys are exactly the distinct resolved paths seen so
far, in first-seen order. -/
def FInv (resolvedSeen : List PyStr) (st : ExpState) : Prop :=
  st.files.map FileEntry.filename = firstOccs resolvedSeen ∧
  st.fileIndexes.map Prod.fst = firstOccs resolvedSeen

theorem xmlAddFile_finv (cfg : FileCfg) {resolvedSeen : List PyStr} {st : ExpState}
    (p pa : PyStr) (h : FInv resolvedSeen st) :
    FInv (resolvedSeen ++ [resolveFile cfg p pa]) (xmlAddFile cfg st p pa).1 := by
  obtain ⟨hf, hi⟩ := h
  unfold xmlAddFile
  cases hfind : assocFind (resolveFile cfg p pa) st.fileIndexes with
  | some fid =>
    have hmem : resolveFile cfg p pa ∈ firstOccs resolvedSeen := by
      by_contra hmm
      have hkeys : resolveFile cfg p pa ∉ st.fileIndexes.map Prod.fst := by
        rw [hi]
        exact hmm
      rw [assocFind_eq_none_iff.mpr hkeys] at hfind
      exact Option.noConfusion hfind
    simp only [hfind]
    constructor
    · rw [hf, firstOccs_append_one]
      simp [hmem]
    · rw [hi, firstOccs_append_one]
      simp [hmem]
  | none =>
    have hnmem : resolveFile cfg p pa ∉ firstOccs resolvedSeen := by
      have := assocFind_eq_none_iff.mp hfind
      rw [hi] at this
      exact this
    simp only [hfind]
    constructor
    · simp only [List.map_append, List.map_cons, List.map_nil]
      rw [hf, firstOccs_append_one]
      simp [hnmem]
    · simp only [List.map_append, List.map_cons, List.map_nil]
      rw [hi, firstOccs_append_one]
      simp [hnmem]

theorem addFilesRun_finv (cfg : FileCfg) (inputs : List (PyStr × PyStr)) :
    FInv (inputs.map (fun pq => resolveFile cfg pq.1 pq.2)) (addFilesRun cfg inputs) := by
  unfold addFilesRun
  have hbase : FInv [] initExpState := ⟨rfl, rfl⟩
  generalize hst : initExpState = st at hbase ⊢
  clear hst
  generalize hseen : ([] : List PyStr) = seen at hbase
  have : seen ++ inputs.map (fun pq => resolveFile cfg pq.1 pq.2) =
      inputs.map (fun pq => resolveFile cfg pq.1 pq.2) := by rw [← hseen]; simp
  rw [← this]
  clear hseen this
  induction inputs generalizing st seen with
  | nil => simpa using hbase
  | cons pq rest ih =>
    simp only [List.foldl_cons, List.map_cons]
    have hstep := xmlAddFile_finv cfg pq.1 pq.2 hbase
    have := ih _ _ hstep
    simpa [List.append_assoc] using this

/-- Claim C5: file registration is keyed by the final resolved path
string.  First conjunct: a second registration whose input resolves to
the same key is a pure cache hit — it returns the first call's `fileId`
and leaves the state unchanged (in particular, two absolute paths that
both rewrite to the same `$`-prefixed shared-data key collapse to one
`File` entry).  Second and third conjuncts: over a whole run, the `File`
elements are exactly the distinct resolved paths, each appearing
once. -/
theorem file_registration_keyed_by_resolved (cfg : FileCfg) (st : ExpState)
    (p pa q qa : PyStr) (inputs : List (PyStr × PyStr))
    (h : resolveFile cfg p pa = resolveFile cfg q qa) :
    (xmlAddFile cfg (xmlAddFile cfg st p pa).1 q qa = xmlAddFile cfg st p pa) ∧
    ((addFilesRun cfg inputs).files.map FileEntry.filename =
      firstOccs (inputs.map (fun pq => resolveFile cfg pq.1 pq.2))) ∧
    ((addFilesRun cfg inputs).files.map FileEntry.filename).Nodup := by
  refine ⟨?_, (addFilesRun_finv cfg inputs).1, ?_⟩
  · unfold xmlAddFile
    rw [← h]
    cases hfind : assocFind (resolveFile cfg p pa) st.fileIndexes with
    | some fid => simp [hfind]
    | none =>
      simp only [hfind]
      rw [assocFind_append_of_none _ hfind]
      simp [assocFind]
  · rw [(addFilesRun_finv cfg inputs).1]
    exact firstOccs_nodup _

/-- Two different absolute texture paths that both rewrite to the
shared-data key `$data\shared\tex.png`. -/
def demoPathA : PyStr := pyStr ("C:\\game\\data\\shared\\tex.png")

def demoPathB : PyStr := pyStr ("D:\\other\\data\\shared\\tex.png")

def demoFileCfg : FileCfg := ⟨true, .MODHUB, pyStr ("textures")⟩

/-- Witness for `file_registration_keyed_by_resolved`: the two demo
paths resolve to the same `$`-key, so the second registration is a
cache hit, and a run over both paths creates a single `File` entry. -/
theorem file_registration_witness :
    (xmlAddFile demoFileCfg
        (xmlAddFile demoFileCfg initExpState demoPathA demoPathA).1 demoPathB demoPathB =
      xmlAddFile demoFileCfg initExpState demoPathA demoPathA) ∧
    ((addFilesRun demoFileCfg [(demoPathA, demoPathA), (demoPathB, demoPathB)]).files.map
        FileEntry.filename =
      firstOccs ([(demoPathA, demoPathA), (demoPathB, demoPathB)].map
        (fun pq => resolveFile demoFileCfg pq.1 pq.2))) ∧
    ((addFilesRun demoFileCfg [(demoPathA, demoPathA), (demoPathB, demoPathB)]).files.map
        FileEntry.filename).Nodup :=
  file_registration_keyed_by_resolved demoFileCfg initExpState demoPathA demoPathA
    demoPathB demoPathB [(demoPathA, demoPathA), (demoPathB, demoPathB)] (by decide)

/-!
## Node transforms (lines 201-241)

4x4 matrices over the (post-rounding) value domain, with the exporter's
matrix composition of lines 210-223.
-/

inductive NodeType
  | MESH
  | CURVE
  | EMPTY
  | CAMERA
  | LIGHT
  | COLLECTION
deriving DecidableEq

structure Mat4 where
  a00 : Int
  a01 : Int
  a02 : Int
  a03 : Int
  a10 : Int
  a11 : Int
  a12 : Int
  a13 : Int
  a20 : Int
  a21 : Int
  a22 : Int
  a23 : Int
  a30 : Int
  a31 : Int
  a32 : Int
  a33 : Int
deriving DecidableEq

/-- Row-times-column 4x4 matrix product (`mathutils`' `@`). -/
def matMul (m n : Mat4) : Mat4 :=
  ⟨m.a00 * n.a00 + m.a01 * n.a10 + m.a02 * n.a20 + m.a03 * n.a30,
   m.a00 * n.a01 + m.a01 * n.a11 + m.a02 * n.a21 + m.a03 * n.a31,
   m.a00 * n.a02 + m.a01 * n.a12 + m.a02 * n.a22 + m.a03 * n.a32,
   m.a00 * n.a03 + m.a01 * n.a13 + m.a02 * n.a23 + m.a03 * n.a33,
   m.a10 * n.a00 + m.a11 * n.a10 + m.a12 * n.a20 + m.a13 * n.a30,
   m.a10 * n.a01 + m.a11 * n.a11 + m.a12 * n.a21 + m.a13 * n.a31,
   m.a10 * n.a02 + m.a11 * n.a12 + m.a12 * n.a22 + m.a13 * n.a32,
   m.a10 * n.a03 + m.a11 * n.a13 + m.a12 * n.a23 + m.a13 * n.a33,
   m.a20 * n.a00 + m.a21 * n.a10 + m.a22 * n.a20 + m.a23 * n.a30,
   m.a20 * n.a01 + m.a21 * n.a11 + m.a22 * n.a21 + m.a23 * n.a31,
   m.a20 * n.a02 + m.a21 * n.a12 + m.a22 * n.a22 + m.a23 * n.a32,
   m.a20 * n.a03 + m.a21 * n.a13 + m.a22 * n.a23 + m.a23 * n.a33,
   m.a30 * n.a00 + m.a31 * n.a10 + m.a32 * n.a20 + m.a33 * n.a30,
   m.a30 * n.a01 + m.a31 * n.a11 + m.a32 * n.a21 + m.a33 * n.a31,
   m.a30 * n.a02 + m.a31 * n.a12 + m.a32 * n.a22 + m.a33 * n.a32,
   m.a30 * n.a03 + m.a31 * n.a13 + m.a32 * n.a23 + m.a33 * n.a33⟩

/-- Line 216 compares the Blender **object** — not its `.type` string —
with `'LIGHT'`: `node.blender_object == 'LIGHT'`.  In Python, comparing
a `bpy.types.Object` with a `str` is always `False`, whatever the
object is. -/
def pyObjEqStrLIGHT (_objType : NodeType) : Bool := false

/-- Lines 210-223 of `_xml_scene_object_general_data`: the matrix
written for a non-collection node.  `G` is `self._global_matrix`, `Gi`
the host-computed `G.inverted()`, `L` the node's `matrix_local`,
`parentType` the `.type` of the node's parent when there is one. -/
def xmlNodeLocalMatrix (G Gi : Mat4) (objType : NodeType) (L : Mat4)
    (parentType : Option NodeType) : Mat4 :=
  let m :=
    if pyObjEqStrLIGHT objType || (objType == NodeType.CAMERA) then matMul G L
    else matMul (matMul G L) Gi
  match parentType with
  | some pt =>
    if pt == NodeType.CAMERA || pt == NodeType.LIGHT then matMul Gi m else m
  | none => m

/-- An axis-conversion change-of-basis (x fixed, y and z rotated). -/
def demoG : Mat4 := ⟨1, 0, 0, 0, 0, 0, -1, 0, 0, 1, 0, 0, 0, 0, 0, 1⟩

/-- The inverse (transpose) of `demoG`. -/
def demoGi : Mat4 := ⟨1, 0, 0, 0, 0, 0, 1, 0, 0, -1, 0, 0, 0, 0, 0, 1⟩

/-- A translation by `(1, 2, 3)`. -/
def demoL : Mat4 := ⟨1, 0, 0, 1, 0, 1, 0, 2, 0, 0, 1, 3, 0, 0, 0, 1⟩

/-- Claim C1 (code bug, evaluated at the failing input): because
line 216 compares the object itself with the string `'LIGHT'` (always
`False`), a LIGHT node takes the generic `G @ L @ G⁻¹` branch instead of
the `G @ L` branch that the claim — and the code's own comment about
lights and cameras — prescribes; at the concrete `demoG`, `demoL` the
two results differ.  Additionally, the `G⁻¹` pre-multiplication of
lines 221-223 fires for *any* node whose parent is a camera or light:
a MESH child of a LIGHT parent is also pre-multiplied, changing its
matrix. -/
theorem light_matrix_bug :
    (∀ G Gi L : Mat4, xmlNodeLocalMatrix G Gi NodeType.LIGHT L none = matMul (matMul G L) Gi) ∧
    xmlNodeLocalMatrix demoG demoGi NodeType.LIGHT demoL none ≠ matMul demoG demoL ∧
    (∀ G Gi L : Mat4,
      xmlNodeLocalMatrix G Gi NodeType.MESH L (some NodeType.LIGHT) =
        matMul Gi (matMul (matMul G L) Gi)) ∧
    xmlNodeLocalMatrix demoG demoGi NodeType.MESH demoL (some NodeType.LIGHT) ≠
      matMul (matMul demoG demoL) demoGi :=
  ⟨fun _ _ _ => rfl, by decide, fun _ _ _ => rfl, by decide⟩

/-!
## Light nodes (lines 582-613 and `ui/light.py`)
-/

inductive LightKind
  | POINT
  | SUN
  | SPOT
  | AREA
deriving DecidableEq

/-- The three falloff kinds the exporter converts (lines 607-612).
Other Blender falloff kinds would reach `_xml_write_int` as an
unconverted string and raise there; they are outside the claims. -/
inductive FalloffKind
  | CONSTANT
  | INVERSE_LINEAR
  | INVERSE_SQUARE
deriving DecidableEq

/-- An attribute value as written by the `_xml_write_*` helpers
(lines 623-641).  Float-valued attributes are carried as exact rationals
(`_xml_write_float`'s 7-decimal rounding and IEEE arithmetic are not
modelled; no claim depends on those digits). -/
inductive AttrVal
  | i (n : Int)
  | f (q : ℚ)
  | s (v : PyStr)
  | b (v : Bool)
deriving DecidableEq

/-- The Blender light datablock fields the exporter reads.  The color is
carried post-rounding in micro-units, like the geometry. -/
structure BLight where
  kind : LightKind
  falloffType : FalloffKind
  spotSize : ℚ
  spotBlend : ℚ
  color : Vec3
  distance : ℚ
  useShadow : Bool
deriving DecidableEq

/-- `math.degrees` (the value of the float `math.pi` is approximated by
a rational; the exact IEEE digits do not matter to any claim). -/
def mathDegrees (x : ℚ) : ℚ := x * 180 / (3141592653589793 / 1000000000000000 : ℚ)

/-- Lines 606-613: the falloff-curve selector written as `decayRate`. -/
def decayRateOf : FalloffKind → Int
  | .CONSTANT => 0
  | .INVERSE_LINEAR => 1
  | .INVERSE_SQUARE => 2

/-- Lines 582-613, `_xml_scene_object_light`: returns the node
attributes in emission order and the printed diagnostics.  POINT and
SPOT set `falloff_type`; SPOT also emits `coneAngle` (degrees) and
`dropOff` (`5.0 * spot_blend`); SUN maps to `directional`; AREA degrades
to `point` with a diagnostic and leaves `falloff_type` as `None`.
`decayRate` is emitted only when `falloff_type` was set. -/
def xmlSceneObjectLight (light : BLight) : List (PyStr × AttrVal) × List PyStr :=
  let r : PyStr × Option FalloffKind × List (PyStr × AttrVal) × List PyStr :=
    match light.kind with
    | .POINT => (pyStr ("point"), some light.falloffType, [], [])
    | .SUN => (pyStr ("directional"), none, [], [])
    | .SPOT =>
      (pyStr ("spot"), some light.falloffType,
        [(pyStr ("coneAngle"), .f (mathDegrees light.spotSize)),
         (pyStr ("dropOff"), .f (5 * light.spotBlend))], [])
    | .AREA =>
      (pyStr ("point"), none, [],
        [pyStr ("Area lights not supported in giants engine, defaulting to point")])
  let base := r.2.2.1 ++
    [(pyStr ("type"), .s r.1),
     (pyStr ("color"), .s (fmtTriple light.color)),
     (pyStr ("range"), .f light.distance),
     (pyStr ("castShadowMap"), .b light.useShadow)]
  let attrs :=
    match r.2.1 with
    | some ft => base ++ [(pyStr ("decayRate"), .i (decayRateOf ft))]
    | none => base
  (attrs, r.2.2.2)

/-- Attribute lookup in an emitted attribute list. -/
def getAttr (attrs : List (PyStr × AttrVal)) (name : PyStr) : Option AttrVal :=
  assocFind name attrs

/-- An AREA light with a falloff curve configured on the datablock. -/
def demoAreaLight : BLight := ⟨.AREA, .CONSTANT, 1, 1, ⟨1000000, 1000000, 1000000⟩, 30, true⟩

/-- Claim C7 counterexample: an AREA light is degraded to `point` with a
diagnostic, yet *no* `decayRate` attribute is emitted — the AREA branch
(lines 597-599) leaves `falloff_type` as `None` — so the claim's
"including an area light degraded to point" part is false. -/
theorem area_light_no_decayRate :
    getAttr (xmlSceneObjectLight demoAreaLight).1 (pyStr ("type")) =
      some (.s (pyStr ("point"))) ∧
    getAttr (xmlSceneObjectLight demoAreaLight).1 (pyStr ("decayRate")) = none ∧
    (xmlSceneObjectLight demoAreaLight).2 ≠ [] := by
  refine ⟨rfl, rfl, ?_⟩
  decide

/-- The light-kind mapping as the spec states it. -/
def lightTypeName : LightKind → PyStr
  | .POINT => pyStr ("point")
  | .SUN => pyStr ("directional")
  | .SPOT => pyStr ("spot")
  | .AREA => pyStr ("point")

/-- Claim C7 (amended): source light kinds map POINT→point,
SUN→directional, SPOT→spot, AREA→point with a diagnostic; a `decayRate`
attribute (constant→0, inverse-linear→1, inverse-square→2) is emitted
exactly for the source kinds POINT and SPOT — an area light degraded to
point emits none. -/
theorem light_kind_and_decay (light : BLight) :
    getAttr (xmlSceneObjectLight light).1 (pyStr ("type")) =
      some (.s (lightTypeName light.kind)) ∧
    getAttr (xmlSceneObjectLight light).1 (pyStr ("decayRate")) =
      (match light.kind with
       | .POINT => some (.i (decayRateOf light.falloffType))
       | .SPOT => some (.i (decayRateOf light.falloffType))
       | .SUN => none
       | .AREA => none) ∧
    ((xmlSceneObjectLight light).2 ≠ [] ↔ light.kind = .AREA) := by
  obtain ⟨kind, ft, ssize, sblend, color, dist, shadow⟩ := light
  cases kind
  · exact ⟨rfl, rfl, by simp [xmlSceneObjectLight]⟩
  · exact ⟨rfl, rfl, by simp [xmlSceneObjectLight]⟩
  · exact ⟨rfl, rfl, by simp [xmlSceneObjectLight]⟩
  · refine ⟨rfl, rfl, ?_⟩
    simp [xmlSceneObjectLight]

/-!
## Serialization (lines 615-621)
-/

structure PyErr where
  msg : PyStr
deriving DecidableEq

/-- Lines 615-621, `_xml_export_to_file`: the write is wrapped in a
catch-all `except` that prints the exception and falls through — the
method returns normally either way.  The argument is the outcome of the
host write call; the result is the printed diagnostics and the outcome
the *caller* of the exporter observes. -/
def xmlExportToFile (writeResult : Except PyErr Unit) : List PyStr × Except PyErr Unit :=
  match writeResult with
  | .ok _ => ([pyStr ("Exported to file")], .ok ())
  | .error e => ([e.msg], .ok ())

/-- Claim C8 counterexample: on a failing serialization the export does
*not* report failure to the caller — the exception is printed and then
swallowed, and the caller observes a normal (`ok`) return. -/
theorem export_failure_not_reported :
    (xmlExportToFile (.error ⟨pyStr ("disk full")⟩)).2 = .ok () ∧
    (xmlExportToFile (.error ⟨pyStr ("disk full")⟩)).2 ≠
      (.error ⟨pyStr ("disk full")⟩ : Except PyErr Unit) ∧
    (xmlExportToFile (.error ⟨pyStr ("disk full")⟩)).1 = [pyStr ("disk full")] := by
  refine ⟨rfl, ?_, rfl⟩
  intro h
  exact Except.noConfusion h

/-- Claim C8 (amended): a serialization failure is caught at the top
level and its diagnostic printed, but the export completes with a
normal return — the failure is *not* propagated to the caller.
Anticipated non-serialization failures (here: the unsupported AREA
light) are absorbed with a diagnostic by their own handlers and do not
abort anything. -/
theorem export_error_handling (e : PyErr) :
    xmlExportToFile (.error e) = ([e.msg], .ok ()) ∧
    xmlExportToFile (.ok ()) = ([pyStr ("Exported to file")], .ok ()) ∧
    (xmlSceneObjectLight demoAreaLight).2 =
      [pyStr ("Area lights not supported in giants engine, defaulting to point")] :=
  ⟨rfl, rfl, rfl⟩

/-!
## The transient mesh copy and exception exit paths (lines 430-558)

`_xml_add_material` (called from the triangle-grouping loop at line 476)
walks the material's shading-node graph through host API calls, any of
which can raise.  Here `_xml_scene_object_shape`'s fresh-compile branch
is embedded again with that host walk made fallible (`hostWalk`), so
the exception exit paths become visible.  The `Bool` in the result
records whether `obj.to_mesh_clear()` (line 558) ran: the body has no
try/finally, so an exception escaping the extraction propagates before
line 558.
-/

/-- `xmlAddMaterial` with the shading-graph walk of lines 276-347
modelled as the fallible host action `hostWalk`. -/
def xmlAddMaterialE (hostWalk : PyStr → Except PyErr Unit) (st : ExpState) (name : PyStr) :
    Except PyErr (ExpState × Nat) :=
  match st.materials.find? (fun m => m.name == name) with
  | some m => .ok (st, m.materialId)
  | none =>
    match hostWalk name with
    | .error e => .error e
    | .ok _ =>
      .ok ({ st with
              materials := st.materials ++ [⟨name, st.materialId⟩]
              materialId := st.materialId + 1 },
            st.materialId)

/-- The triangle-grouping loop of lines 469-483 with fallible material
resolution: an exception from `_xml_add_material` propagates out of the
loop. -/
def groupTrianglesRunE (hostWalk : PyStr → Except PyErr Unit) (materials : List PyStr)
    (sid : Nat) :
    List LoopTri → ExpState × List (PyStr × List LoopTri) →
      Except PyErr (ExpState × List (PyStr × List LoopTri))
  | [], p => .ok p
  | t :: r, p =>
    let name := materials.getD t.materialIndex []
    match assocFind name p.2 with
    | some tris =>
      groupTrianglesRunE hostWalk materials sid r (p.1, assocSet name (tris ++ [t]) p.2)
    | none =>
      match xmlAddMaterialE hostWalk p.1 name with
      | .error e => .error e
      | .ok rr =>
        groupTrianglesRunE hostWalk materials sid r
          (addShapeMaterialIndex rr.1 sid rr.2, p.2 ++ [(name, [t])])

/-- The fresh-compile branch of `_xml_scene_object_shape`
(lines 421-558) with the fallible host walk.  The transient evaluated
mesh copy is created by `obj.to_mesh(...)` at line 438; `to_mesh_clear`
(line 558) runs only if the whole straight-line extraction completes —
there is no try/finally — so on the error path the function returns with
the copy still alive (`false`). -/
def freshShapeCompile (hostWalk : PyStr → Except PyErr Unit) (st : ExpState)
    (meshName : PyStr) (mesh : PyMesh) : Bool × Except PyErr (ExpState × Nat) :=
  let sid := st.shapeId
  let st1 := { st with shapeId := st.shapeId + 1 }
  let mats := if mesh.materials.isEmpty then [pyStr ("i3d_default_material")]
              else mesh.materials
  match groupTrianglesRunE hostWalk mats sid mesh.loopTriangles (st1, []) with
  | .error e => (false, .error e)
  | .ok r =>
    let compiled := compileSubsets mesh r.2
    (true, .ok ({ r.1 with shapes := r.1.shapes ++ [⟨meshName, sid, compiled⟩] }, sid))

/-- A host material-graph walk that raises (e.g. a missing shader
socket). -/
def failingWalk : PyStr → Except PyErr Unit :=
  fun _ => .error ⟨pyStr ("shading node access failed")⟩

/-- A host material-graph walk that succeeds. -/
def okWalk : PyStr → Except PyErr Unit := fun _ => .ok ()

/-- Claim C9 (code bug, evaluated at a failing input): when material
resolution raises during triangle grouping, the exception propagates
out of the shape-compilation routine *before* `obj.to_mesh_clear()`
(line 558) — there is no try/finally — so the transient mesh copy is
not released on that exit path; on the normal path it is released. -/
theorem mesh_copy_not_released_on_error :
    (freshShapeCompile failingWalk initExpState (pyStr ("Cube")) demoMesh).1 = false ∧
    (freshShapeCompile failingWalk initExpState (pyStr ("Cube")) demoMesh).2 =
      .error ⟨pyStr ("shading node access failed")⟩ ∧
    (freshShapeCompile okWalk initExpState (pyStr ("Cube")) demoMesh).1 = true := by
  refine ⟨rfl, rfl, ?_⟩
  decide

/-!
## The Scene Graph Builder (lines 68-127 and 691-751)

Host scene entities are a closed sum of objects and collections
(`Union[bpy.types.Object, bpy.types.Collection]`), as probed by the
`isinstance` checks of `new_graph_node`.
-/

/-- A host scene entity: `obj type hasParent instanceCollection
children` mirrors a `bpy.types.Object` (`hasParent` is
`parent is not None`); `coll children objects` mirrors a
`bpy.types.Collection`. -/
inductive BEntity where
  | obj : NodeType → Bool → Option BEntity → List BEntity → BEntity
  | coll : List BEntity → List BEntity → BEntity

def BEntity.hasParent : BEntity → Bool
  | .obj _ hp _ _ => hp
  | .coll _ _ => false

/-- A `SceneGraph.Node` (lines 692-712), flattened: id, source entity,
parent id. -/
structure SGNode where
  id : Nat
  entity : Option BEntity
  parent : Option Nat

/-- The `SceneGraph` state (lines 714-723 and 745-751): the node-id
counter and the node table in insertion order. -/
structure SG where
  counter : Nat
  nodes : List SGNode

/-- Lines 745-751, `add_node`: allocate `ids['node']`, store the node,
advance the counter. -/
def SG.addNode (g : SG) (e : Option BEntity) (parent : Option Nat) : SG × Nat :=
  ({ counter := g.counter + 1, nodes := g.nodes ++ [⟨g.counter, e, parent⟩] }, g.counter)

/-- `SceneGraph.__init__` (lines 714-723): the synthetic root node gets
id 0. -/
def sceneGraphInit : SG := (SG.addNode ⟨0, []⟩ none none).1

/-- Lines 72-109, `new_graph_node`: skip objects whose type is not
exported (with their subtree); allocate a node — or, in unpack mode,
splice into the caller's node; expand an EMPTY's instance collection
into the same node (lines 88-92); recurse into object children
(lines 95-98); for a collection, recurse into child collections and
into parentless member objects (lines 101-109).

The source recursion is unbounded and has no guard against cyclic
collection instancing (a collection reachable from its own instance
empty loops forever); the embedding therefore indexes the recursion by
an explicit budget `fuel`, which any finite acyclic scene bounds. -/
def newGraphNode (ot : List NodeType) : Nat → BEntity → SG → Nat → Bool → SG
  | 0, _, g, _, _ => g
  | fuel + 1, .obj t hp ic ch, g, parentId, unpack =>
    if t ∉ ot then g
    else
      let r := if unpack then (g, parentId)
               else SG.addNode g (some (.obj t hp ic ch)) (some parentId)
      let g2 :=
        if t = NodeType.EMPTY then
          match ic with
          | some c => newGraphNode ot fuel c r.1 r.2 true
          | none => r.1
        else r.1
      ch.foldl (fun acc c => newGraphNode ot fuel c acc r.2 false) g2
  | fuel + 1, .coll cs os, g, parentId, unpack =>
    let r := if unpack then (g, parentId)
             else SG.addNode g (some (.coll cs os)) (some parentId)
    let g2 := cs.foldl (fun acc c => newGraphNode ot fuel c acc r.2 false) r.1
    os.foldl (fun acc c => if c.hasParent then acc else newGraphNode ot fuel c acc r.2 false) g2

inductive SelectionMode
  | ALL
  | ACTIVE_COLLECTION
  | SELECTED_OBJECTS
deriving DecidableEq

/-- The host context consumed by `_xml_build_scene_graph`:
`bpy.context.scene.collection`, the active layer collection, the
selected objects and the configured exportable object types. -/
structure BContext where
  sceneCollection : BEntity
  activeCollection : BEntity
  selectedObjects : List BEntity
  objectTypesToExport : List NodeType

/-- Lines 68-127, `_xml_build_scene_graph`: build under the synthetic
root (node 0) from the scene collection (`ALL`) or the active collection
(`ACTIVE_COLLECTION`).  The `SELECTED_OBJECTS` branch (lines 118-120)
is `pass` — followed only by commented-out code — so it adds nothing.
`fuel` is the recursion budget of `newGraphNode`. -/
def buildSceneGraph (ctx : BContext) (mode : SelectionMode) (fuel : Nat) : SG :=
  let g := sceneGraphInit
  match mode with
  | .ALL => newGraphNode ctx.objectTypesToExport fuel ctx.sceneCollection g 0 false
  | .ACTIVE_COLLECTION =>
    newGraphNode ctx.objectTypesToExport fuel ctx.activeCollection g 0 false
  | .SELECTED_OBJECTS => g

/-- A selected, exportable MESH object sitting at the scene root. -/
def demoSelectedMesh : BEntity := .obj NodeType.MESH false none []

/-- A context whose scene holds exactly the one selected MESH object. -/
def demoCtx : BContext :=
  { sceneCollection := .coll [] [demoSelectedMesh]
    activeCollection := .coll [] []
    selectedObjects := [demoSelectedMesh]
    objectTypesToExport := [NodeType.MESH, NodeType.EMPTY, NodeType.LIGHT, NodeType.CAMERA] }

/-- Claim C6 (code bug, evaluated at the failing input): the
`SELECTED_OBJECTS` selection mode is unimplemented — its branch is
`pass` — so the builder returns the bare synthetic root (id 0) for
*every* context, even one with a selected exportable MESH object; the
`ALL` mode on the same scene does build nodes (the scene collection and
the object). -/
theorem selected_objects_mode_builds_nothing :
    (∀ (ctx : BContext) (fuel : Nat),
      buildSceneGraph ctx .SELECTED_OBJECTS fuel = sceneGraphInit) ∧
    (buildSceneGraph demoCtx .SELECTED_OBJECTS 5).nodes.map SGNode.id = [0] ∧
    demoCtx.selectedObjects = [demoSelectedMesh] ∧
    demoSelectedMesh = .obj NodeType.MESH false none [] ∧
    NodeType.MESH ∈ demoCtx.objectTypesToExport ∧
    (buildSceneGraph demoCtx .ALL 5).nodes.map SGNode.id = [0, 1, 2] := by
  refine ⟨fun ctx fuel => rfl, rfl, rfl, rfl, by decide, ?_⟩
  rfl

/-!
## Emitting the Scene section (lines 169-203 and 673-688)

For this claim the built scene graph is viewed as the tree it forms:
a node's id, name, source entity kind and ordered children
(`node.children.values()`).
-/

/-- A built `SceneGraph.Node`, viewed as a tree. -/
inductive SNode where
  | mk : Nat → PyStr → NodeType → List SNode → SNode

def SNode.id : SNode → Nat
  | .mk i _ _ _ => i

def SNode.name : SNode → PyStr
  | .mk _ n _ _ => n

def SNode.typ : SNode → NodeType
  | .mk _ _ t _ => t

def SNode.children : SNode → List SNode
  | .mk _ _ _ c => c

/-- Lines 673-688, `blender_to_i3d`: the output element name per source
kind (a collection and the `COLLECTION`/`EMPTY` object kinds all become
`TransformGroup`). -/
def blenderToI3d : NodeType → PyStr
  | .COLLECTION => pyStr ("TransformGroup")
  | .MESH => pyStr ("Shape")
  | .CURVE => pyStr ("Shape")
  | .EMPTY => pyStr ("TransformGroup")
  | .CAMERA => pyStr ("Camera")
  | .LIGHT => pyStr ("Light")

/-- An emitted XML element: tag, attributes, children. -/
inductive XElem where
  | mk : PyStr → List (PyStr × AttrVal) → List XElem → XElem

def XElem.attrs : XElem → List (PyStr × AttrVal)
  | .mk _ a _ => a

def XElem.children : XElem → List XElem
  | .mk _ _ c => c

mutual

/-- Lines 171-194, `parse_node`: write the general data — the node's
name and its `nodeId` (`_xml_scene_object_general_data`, lines 201-203;
the transform attributes and the per-kind dispatch add further
attributes this claim does not concern) — then create one subelement per
child, tagged by `blender_to_i3d`, and recurse. -/
def parseNode : SNode → XElem
  | .mk i nm t ch =>
    .mk (blenderToI3d t)
      [(pyStr ("name"), .s nm), (pyStr ("nodeId"), .i (Int.ofNat i))]
      (parseForest ch)

def parseForest : List SNode → List XElem
  | [] => []
  | c :: r => parseNode c :: parseForest r

end

/-- Lines 196-199: the `Scene` section receives one element subtree per
child of the synthetic root; the root node itself is never passed to
`parse_node`. -/
def parseSceneGraph (root : SNode) : List XElem := parseForest root.children

mutual

/-- The `nodeId` attribute values of an emitted subtree, in document
order. -/
def xElemNodeIds : XElem → List AttrVal
  | .mk _ attrs ch =>
    (match assocFind (pyStr ("nodeId")) attrs with
     | some v => [v]
     | none => []) ++ xForestNodeIds ch

def xForestNodeIds : List XElem → List AttrVal
  | [] => []
  | e :: r => xElemNodeIds e ++ xForestNodeIds r

end

mutual

/-- The node ids of a scene-graph subtree, in traversal order. -/
def snodeIds : SNode → List Nat
  | .mk i _ _ ch => i :: sforestIds ch

def sforestIds : List SNode → List Nat
  | [] => []
  | n :: r => snodeIds n ++ sforestIds r

end

mutual

theorem parseNode_ids (n : SNode) :
    xElemNodeIds (parseNode n) = (snodeIds n).map (fun i => AttrVal.i (Int.ofNat i)) := by
  match n with
  | .mk i nm t ch =>
    rw [parseNode, xElemNodeIds, snodeIds]
    simp only [List.map_cons]
    rw [parseForest_ids ch]
    rfl

theorem parseForest_ids (l : List SNode) :
    xForestNodeIds (parseForest l) = (sforestIds l).map (fun i => AttrVal.i (Int.ofNat i)) := by
  match l with
  | [] => rfl
  | c :: r =>
    rw [parseForest, xForestNodeIds, sforestIds]
    simp only [List.map_append]
    rw [parseNode_ids c, parseForest_ids r]

end

theorem parseForest_length (l : List SNode) : (parseForest l).length = l.length := by
  induction l with
  | nil => rfl
  | cons c r ih => simp [parseForest, ih]

/-- Claim C10: the synthetic root node is never emitted — the `Scene`
section holds exactly one element subtree per child of the root, every
emitted node element carries the `nodeId` assigned during graph building
(the document-order id sequence equals the traversal-order id sequence
of the root's children), and — given that the builder's monotonically
assigned ids make every non-root id differ from the root's — the root's
id appears on no emitted element. -/
theorem root_never_emitted (root : SNode)
    (h : ∀ i ∈ sforestIds root.children, i ≠ root.id) :
    (parseSceneGraph root).length = root.children.length ∧
    xForestNodeIds (parseSceneGraph root) =
      (sforestIds root.children).map (fun i => AttrVal.i (Int.ofNat i)) ∧
    AttrVal.i (Int.ofNat root.id) ∉ xForestNodeIds (parseSceneGraph root) := by
  refine ⟨parseForest_length _, parseForest_ids _, ?_⟩
  show AttrVal.i (Int.ofNat root.id) ∉ xForestNodeIds (parseForest root.children)
  rw [parseForest_ids]
  intro hmem
  obtain ⟨i, hi, hiv⟩ := List.mem_map.mp hmem
  have : Int.ofNat i = Int.ofNat root.id := by
    injection hiv
  exact h i hi (Int.ofNat.inj this)

/-- A three-node scene graph under the synthetic root. -/
def demoRoot : SNode :=
  .mk 0 (pyStr ("root")) NodeType.COLLECTION
    [.mk 1 (pyStr ("Scene Collection")) NodeType.COLLECTION
      [.mk 2 (pyStr ("Cube")) NodeType.MESH []],
     .mk 3 (pyStr ("Lamp")) NodeType.LIGHT []]

/-- Witness for `root_never_emitted` at the concrete graph `demoRoot`. -/
theorem root_never_emitted_witness :
    (parseSceneGraph demoRoot).length = demoRoot.children.length ∧
    xForestNodeIds (parseSceneGraph demoRoot) =
      (sforestIds demoRoot.children).map (fun i => AttrVal.i (Int.ofNat i)) ∧
    AttrVal.i (Int.ofNat demoRoot.id) ∉ xForestNodeIds (parseSceneGraph demoRoot) :=
  root_never_emitted demoRoot (by decide)

end I3D
